import Mathlib

/-!
Shallow embedding of `generate.py`, the Mapbase VScript documentation dump
converter.  The script parses a flat text dump into records (`Instance` in
the Python source), classifies them into five per-category dictionaries
(`gather_info`), renders Markdown documents (`generate_table`,
`describe_signed`, `signed_page`, `generate_docs`) and finally writes ten
files.  Python strings are modelled as Lean `String` / `List Char`;
Python dictionaries as insertion-ordered association lists whose update
replaces in place (exactly Python's `dict` observable behaviour); Python
exceptions (`IndexError` from `re.findall(...)[0]`, `AttributeError` from
missing attributes, `KeyError` from missing dict keys, `ValueError` from
tuple unpacking of `str.split`) as an `Except` error type.  All string
helpers are written with structural or fuel recursion so that every
definition evaluates by kernel reduction.
-/

/-- The Python exceptions the script can raise. -/
inductive GErr : Type where
  | indexError : GErr
  | attrError : GErr
  | keyError : GErr
  | valueError : GErr
deriving DecidableEq

/-- Python `dict` lookup on an insertion-ordered association list
(first — and, by the update discipline below, only — binding wins). -/
def dictGet {α : Type} : List (String × α) → String → Option α
  | [], _ => none
  | (k', v) :: rest, k => if k' = k then some v else dictGet rest k

/-- Python `dict` assignment `d[k] = v`: replaces the value in place if the
key is present (keeping its insertion position), otherwise appends. -/
def dictSet {α : Type} : List (String × α) → String → α → List (String × α)
  | [], k, v => [(k, v)]
  | (k', v') :: rest, k, v =>
    if k' = k then (k, v) :: rest else (k', v') :: dictSet rest k v

/-- Characters matched by Python's regex `\s` on ASCII input. -/
def isPySpace (c : Char) : Bool :=
  c = ' ' || c = '\t' || c = '\n' || c = '\r' || c = '\x0b' || c = '\x0c'

/-- Drop the leading run of `':'` characters (the starting positions at
which the regex `([^:]+):\s*(.*)` cannot begin to match). -/
def dropColons : List Char → List Char
  | [] => []
  | c :: cs => if c = ':' then dropColons cs else c :: cs

/-- Drop the leading run of whitespace (the greedy `\s*` of the regex). -/
def dropSpaces : List Char → List Char
  | [] => []
  | c :: cs => if isPySpace c then dropSpaces cs else c :: cs

/-- Split a character list at its first `':'`; `none` when there is no
colon.  The key part may be empty. -/
def splitColon : List Char → Option (List Char × List Char)
  | [] => none
  | c :: cs =>
    if c = ':' then some ([], cs)
    else
      match splitColon cs with
      | none => none
      | some (k, v) => some (c :: k, v)

/-- `re.findall(r"([^:]+):\s*(.*)", line)[0]` of the source, as the leftmost
match of the regex on a single line: skip the characters at which no match
can start (leading colons), read the maximal colon-free key, require a
`':'`, then strip the whitespace after it greedily; the rest of the line —
colons included — is the value.  `none` models the `IndexError` raised by
`[0]` when the line has no match. -/
def pyFindFirstL (cs : List Char) : Option (List Char × List Char) :=
  match splitColon (dropColons cs) with
  | none => none
  | some (k, v) => some (k, dropSpaces v)

/-- String-level wrapper of `pyFindFirstL`. -/
def pyFindFirst (s : String) : Option (String × String) :=
  match pyFindFirstL s.data with
  | none => none
  | some (k, v) => some (⟨k⟩, ⟨v⟩)

/-- Does `cs` begin with `pre`? -/
def listStartsWith : List Char → List Char → Bool
  | _, [] => true
  | [], _ :: _ => false
  | c :: cs, d :: ds => c = d && listStartsWith cs ds

/-- Fuelled worker for Python `str.split(sep)` (so that every application
reduces in the kernel); one unit of fuel is spent per consumed character,
hence fuel = length of the input suffices. -/
def pySplitFuel (sep : List Char) : Nat → List Char → List Char → List (List Char)
  | _, acc, [] => [acc.reverse]
  | 0, acc, rest => [acc.reverse ++ rest]
  | fuel + 1, acc, c :: cs =>
    if listStartsWith (c :: cs) sep then
      acc.reverse :: pySplitFuel sep fuel [] (List.drop sep.length (c :: cs))
    else
      pySplitFuel sep fuel (c :: acc) cs

/-- Python `s.split(sep)` for a non-empty separator. -/
def pySplit (s sep : String) : List String :=
  (pySplitFuel sep.data s.data.length [] s.data).map fun l => ⟨l⟩

/-- Join back with a separator (used to model `str.split(sep, 1)`). -/
def joinSep (sep : String) : List String → String
  | [] => ""
  | [x] => x
  | x :: y :: xs => x ++ sep ++ joinSep sep (y :: xs)

/-- Python `a, b = s.split(sep, 1)`: split at the first occurrence only;
`none` models the `ValueError` of unpacking a 1-element list. -/
def pySplitOnce (s sep : String) : Option (String × String) :=
  match pySplit s sep with
  | [] => none
  | [_] => none
  | x :: y :: xs => some (x, joinSep sep (y :: xs))

/-- Python `a, b = s.split(sep)`: `none` (a `ValueError`) unless the split
yields exactly two pieces. -/
def pySplitExact2 (s sep : String) : Option (String × String) :=
  match pySplit s sep with
  | [a, b] => some (a, b)
  | _ => none

/-- Python `str.splitlines` on `\n`-separated text: like `split("\n")`
except that a trailing empty piece is dropped (so `""` has no lines). -/
def pySplitlines (s : String) : List String :=
  let parts := pySplit s "\n"
  match parts.getLast? with
  | some "" => parts.dropLast
  | _ => parts

/-- Consume exactly `n` `'='` characters. -/
def eatEq : Nat → List Char → Option (List Char)
  | 0, cs => some cs
  | _ + 1, [] => none
  | n + 1, c :: cs => if c = '=' then eatEq n cs else none

/-- Consume one optional `'\n'` (the trailing greedy `\n?`). -/
def afterEq : List Char → List Char
  | [] => []
  | c :: r => if c = '\n' then r else c :: r

/-- One attempted match of the regex `\n?={37}\n?` at the head of the
input, returning the rest of the input after the match.  The leading
`\n?` consumes a newline only when the 37 `'='` follow it (otherwise the
regex backtracks, and a match starting at a `'\n'` without `'='` after it
would need the 37 `'='` at the `'\n'` itself — impossible). -/
def sepMatch (cs : List Char) : Option (List Char) :=
  match cs with
  | [] => none
  | c :: rest =>
    if c = '\n' then (eatEq 37 rest).map afterEq
    else (eatEq 37 (c :: rest)).map afterEq

/-- Fuelled worker for `re.sub(r"\n?={37}\n?", "", block)`: scan left to
right, removing each leftmost non-overlapping match. -/
def subSepFuel : Nat → List Char → List Char
  | _, [] => []
  | 0, cs => cs
  | fuel + 1, c :: cs =>
    match sepMatch (c :: cs) with
    | some rest => subSepFuel fuel rest
    | none => c :: subSepFuel fuel cs

/-- `re.sub(r"\n?={37}\n?", "", s)` of `gather_info` (line 56 of the
source): note the regex deletes runs of exactly 37 `'='` characters. -/
def pySubSep (s : String) : String := ⟨subSepFuel s.data.length s.data⟩

/-- The parsed record type (`Instance` in the source).  Python sets
attributes dynamically; we model the string attributes (`Type`, `Name`,
`Description`, `Value`, `Signature`, and any other parsed key) as an
association list, and the four list attributes that `__init__` allocates
conditionally (`Values` for a first-line type `Enum`; `Functions`,
`Members`, `Hooks` for a first-line type `Class`) as `Option (List Inst)`,
where `none` means the attribute was never created (so that accessing it
raises `AttributeError`). -/
inductive Inst : Type where
  | mk (attrs : List (String × String))
      (values functions members hooks : Option (List Inst)) : Inst

/-- The string attributes of a record. -/
def Inst.attrs : Inst → List (String × String)
  | .mk a _ _ _ _ => a

/-- `getattr(inst, k, None)` for string-valued attributes. -/
def Inst.getA (i : Inst) (k : String) : Option String := dictGet i.attrs k

/-- `inst.Type` (`none` = `AttributeError`). -/
def Inst.typeA (i : Inst) : Option String := i.getA "Type"

/-- `inst.Name` (`none` = `AttributeError`). -/
def Inst.nameA (i : Inst) : Option String := i.getA "Name"

/-- `inst.Description` (`none` = `AttributeError`). -/
def Inst.descriptionA (i : Inst) : Option String := i.getA "Description"

/-- `inst.Values` (`none` = `AttributeError`). -/
def Inst.valuesA : Inst → Option (List Inst)
  | .mk _ v _ _ _ => v

/-- `inst.Functions` (`none` = `AttributeError`). -/
def Inst.functionsA : Inst → Option (List Inst)
  | .mk _ _ f _ _ => f

/-- `inst.Members` (`none` = `AttributeError`). -/
def Inst.membersA : Inst → Option (List Inst)
  | .mk _ _ _ m _ => m

/-- `inst.Hooks` (`none` = `AttributeError`). -/
def Inst.hooksA : Inst → Option (List Inst)
  | .mk _ _ _ _ h => h

/-- In-place update of `Values` (Python `list.append` target). -/
def Inst.setValues : Inst → List Inst → Inst
  | .mk a _ f m h, vs => .mk a (some vs) f m h

/-- In-place update of `Functions`. -/
def Inst.setFunctions : Inst → List Inst → Inst
  | .mk a v _ m h, fs => .mk a v (some fs) m h

/-- In-place update of `Members`. -/
def Inst.setMembers : Inst → List Inst → Inst
  | .mk a v f _ h, ms => .mk a v f (some ms) h

/-- In-place update of `Hooks`. -/
def Inst.setHooks : Inst → List Inst → Inst
  | .mk a v f m _, hs => .mk a v f m (some hs)

/-- The loop of `Instance.__init__` (lines 13-28 of the source): for each
line take the first regex match (`none` on failure, the `IndexError`);
when `Type` is not yet set, the key becomes `Type`, the value becomes
`Name`, and the child lists are allocated for `Enum` / `Class`; otherwise
`setattr(self, key, value)`.  After the loop, `Description` defaults to
`""` when absent. -/
def instLines (attrs : List (String × String))
    (vals fns mems hks : Option (List Inst)) : List String → Option Inst
  | [] =>
    some (Inst.mk
      (match dictGet attrs "Description" with
       | none => dictSet attrs "Description" ""
       | some _ => attrs)
      vals fns mems hks)
  | l :: ls =>
    match pyFindFirst l with
    | none => none
    | some (k, v) =>
      match dictGet attrs "Type" with
      | none =>
        instLines (dictSet (dictSet attrs "Type" k) "Name" v)
          (if k = "Enum" then some [] else vals)
          (if k = "Class" then some [] else fns)
          (if k = "Class" then some [] else mems)
          (if k = "Class" then some [] else hks) ls
      | some _ => instLines (dictSet attrs k v) vals fns mems hks ls

/-- `Instance(text)` applied to the lines of a block: `none` models the
fatal `IndexError` on a line without a regex match. -/
def instInit (lines : List String) : Option Inst :=
  instLines [] none none none none lines

/-- The five per-category dictionaries built by `gather_info` (the literal
at lines 48-54 of the source has exactly the keys `Enum`, `Constant`,
`Class`, `Function`, `Hook` — there is no `Member` key). -/
structure Info : Type where
  enums : List (String × Inst)
  constants : List (String × Inst)
  classes : List (String × Inst)
  functions : List (String × Inst)
  hooks : List (String × Inst)

/-- `info[ty]`: dynamic lookup in the outer dictionary; `none` models the
`KeyError` for any other type tag (in particular `"Member"`). -/
def Info.dictOf (i : Info) : String → Option (List (String × Inst))
  | "Enum" => some i.enums
  | "Constant" => some i.constants
  | "Class" => some i.classes
  | "Function" => some i.functions
  | "Hook" => some i.hooks
  | _ => none

/-- Writing back the inner dictionary selected by `ty` (the in-place
mutation of `info[ty]`). -/
def Info.setDict (i : Info) (ty : String) (d : List (String × Inst)) : Info :=
  match ty with
  | "Enum" => { i with enums := d }
  | "Constant" => { i with constants := d }
  | "Class" => { i with classes := d }
  | "Function" => { i with functions := d }
  | "Hook" => { i with hooks := d }
  | _ => i

/-- The empty initial `info` dictionary of `gather_info`. -/
def initInfo : Info := ⟨[], [], [], [], []⟩

/-- Python `name.split(sep)[0]`. -/
def pySplitHead (s sep : String) : String := (pySplit s sep).headD s

/-- Lines 59-63 of the source: when the record is a `Constant` whose name
split on `"."` has a head naming a known enum, append it (in place) to
that enum's `Values`; `AttributeError` when the target has no `Values`
list. -/
def nestEnumConst (info : Info) (inst : Inst) (nm : String) : Except GErr Info :=
  match dictGet info.enums (pySplitHead nm ".") with
  | none => .ok info
  | some e =>
    match e.valuesA with
    | none => .error .attrError
    | some vs =>
      .ok { info with
            enums := dictSet info.enums (pySplitHead nm ".") (e.setValues (vs ++ [inst])) }

/-- The `Function` arm of the chain (lines 64-68): `none` when the
`"::"`-head of the name names no known class (the condition is false and
the chain falls through). -/
def chainFn (info : Info) (inst : Inst) (nm : String) : Option (Except GErr Info) :=
  match dictGet info.classes (pySplitHead nm "::") with
  | none => none
  | some cl =>
    some (match cl.functionsA with
      | none => .error .attrError
      | some fs =>
        .ok { info with
              classes := dictSet info.classes (pySplitHead nm "::") (cl.setFunctions (fs ++ [inst])) })

/-- The `Member` arm of the chain (lines 69-73). -/
def chainMem (info : Info) (inst : Inst) (nm : String) : Option (Except GErr Info) :=
  match dictGet info.classes (pySplitHead nm ".") with
  | none => none
  | some cl =>
    some (match cl.membersA with
      | none => .error .attrError
      | some ms =>
        .ok { info with
              classes := dictSet info.classes (pySplitHead nm ".") (cl.setMembers (ms ++ [inst])) })

/-- The `Hook` arm of the chain (lines 74-78). -/
def chainHook (info : Info) (inst : Inst) (nm : String) : Option (Except GErr Info) :=
  match dictGet info.classes (pySplitHead nm " -> ") with
  | none => none
  | some cl =>
    some (match cl.hooksA with
      | none => .error .attrError
      | some hs =>
        .ok { info with
              classes := dictSet info.classes (pySplitHead nm " -> ") (cl.setHooks (hs ++ [inst])) })

/-- The `else` branch (lines 79-80): `info[inst.Type][inst.Name] = inst`.
Looks up the outer dictionary first (`KeyError` when the type tag is not
one of the five keys), then the name (`AttributeError` when absent), then
files the record. -/
def fileStandalone (info : Info) (ty : String) (inst : Inst) : Except GErr Info :=
  match info.dictOf ty with
  | none => .error .keyError
  | some d =>
    match inst.nameA with
    | none => .error .attrError
    | some nm => .ok (info.setDict ty (dictSet d nm inst))

/-- The classification of one parsed record by the loop body of
`gather_info` (lines 59-80): first the free-standing enum-constant `if`,
then the `Function`/`Member`/`Hook` `if`/`elif`/`elif` chain whose `else`
files the record standalone under its own type and name.  Note that a
`Constant` — nested under an enum or not — always reaches that `else`. -/
def classifyStep (info : Info) (inst : Inst) : Except GErr Info :=
  match inst.typeA with
  | none => .error .attrError
  | some ty =>
    let step1 : Except GErr Info :=
      if ty = "Constant" then
        match inst.nameA with
        | none => .error .attrError
        | some nm => nestEnumConst info inst nm
      else .ok info
    match step1 with
    | .error e => .error e
    | .ok info₁ =>
      if ty = "Function" then
        match inst.nameA with
        | none => .error .attrError
        | some nm =>
          match chainFn info₁ inst nm with
          | some r => r
          | none => fileStandalone info₁ ty inst
      else if ty = "Member" then
        match inst.nameA with
        | none => .error .attrError
        | some nm =>
          match chainMem info₁ inst nm with
          | some r => r
          | none => fileStandalone info₁ ty inst
      else if ty = "Hook" then
        match inst.nameA with
        | none => .error .attrError
        | some nm =>
          match chainHook info₁ inst nm with
          | some r => r
          | none => fileStandalone info₁ ty inst
      else fileStandalone info₁ ty inst

/-- Classify a list of already-parsed records in order. -/
def classifyList (info : Info) : List Inst → Except GErr Info
  | [] => .ok info
  | r :: rs =>
    match classifyStep info r with
    | .error e => .error e
    | .ok info' => classifyList info' rs

/-- One iteration of the `gather_info` loop on a raw block: strip the
`={37}` separators, parse the block into a record, classify it. -/
def gatherBlock (info : Info) (block : String) : Except GErr Info :=
  match instInit (pySplitlines (pySubSep block)) with
  | none => .error .indexError
  | some inst => classifyStep info inst

/-- The loop of `gather_info` over raw blocks. -/
def gatherList (info : Info) : List String → Except GErr Info
  | [] => .ok info
  | b :: bs =>
    match gatherBlock info b with
    | .error e => .error e
    | .ok info' => gatherList info' bs

/-- `gather_info(raw)` (lines 47-82 of the source): split the context text
into blocks on blank lines and fold the per-block work over the five
empty dictionaries. -/
def gather_info (raw : String) : Except GErr Info :=
  gatherList initInfo (pySplit raw "\n\n")

/-- The `pretty_names` dictionary (lines 31-37 of the source). -/
def pretty_names : List (String × String) :=
  [("Enum", "Enums"), ("Constant", "Constants"), ("Class", "Classes"),
   ("Function", "Global Functions"), ("Hook", "Global Hooks")]

/-- One row of `generate_table` (lines 87-91): `| Name | Value |`, then a
Description cell only when the description string is truthy (non-empty),
then the newline.  Missing attributes raise `AttributeError`. -/
def tableRow (c : Inst) : Except GErr String :=
  match c.nameA with
  | none => .error .attrError
  | some nm =>
    match c.getA "Value" with
    | none => .error .attrError
    | some v =>
      match c.descriptionA with
      | none => .error .attrError
      | some d =>
        .ok ("| " ++ nm ++ " | " ++ v ++ " |"
          ++ (if d = "" then "" else " " ++ d ++ " |") ++ "\n")

/-- The row loop of `generate_table`. -/
def tableRows : List Inst → Except GErr String
  | [] => .ok ""
  | c :: cs =>
    match tableRow c with
    | .error e => .error e
    | .ok r =>
      match tableRows cs with
      | .error e => .error e
      | .ok rest => .ok (r ++ rest)

/-- `generate_table(constants)` (lines 85-92 of the source): header, one
row per constant, one extra trailing newline. -/
def generate_table (constants : List Inst) : Except GErr String :=
  match tableRows constants with
  | .error e => .error e
  | .ok rows => .ok ("| Name | Value | Description |\n| --- | --- | --- |\n" ++ rows ++ "\n")

/-- `"#" * indents`. -/
def hashes : Nat → String
  | 0 => ""
  | n + 1 => "#" ++ hashes n

/-- `describe_signed(function, indents)` (lines 95-100 of the source). -/
def describe_signed (f : Inst) (indents : Nat) : Except GErr String :=
  match f.nameA with
  | none => .error .attrError
  | some nm =>
    match f.descriptionA with
    | none => .error .attrError
    | some d =>
      match f.getA "Signature" with
      | none => .error .attrError
      | some sig =>
        .ok (hashes indents ++ " " ++ nm ++ "\n"
          ++ (if d = "" then "" else "\n" ++ d ++ "\n")
          ++ "\n```cpp\n" ++ sig ++ "\n```\n")

/-- Mapping `describe_signed` over a list, propagating errors. -/
def describeAll (indents : Nat) : List Inst → Except GErr (List String)
  | [] => .ok []
  | f :: fs =>
    match describe_signed f indents with
    | .error e => .error e
    | .ok d =>
      match describeAll indents fs with
      | .error e => .error e
      | .ok ds => .ok (d :: ds)

/-- `signed_page(signed_list, type)` (lines 103-106 of the source). -/
def signed_page (signed_list : List Inst) (ty : String) : Except GErr String :=
  match describeAll 4 signed_list with
  | .error e => .error e
  | .ok ds => .ok ("### " ++ ty ++ "\n\n" ++ (joinSep "\n" ds ++ "\n"))

/-- The `Enum` section of a document (lines 115-119): heading, optional
description, table of the `Values` attribute (`AttributeError` when it
was never allocated). -/
def enumSection (i : Inst) : Except GErr String :=
  match i.nameA with
  | none => .error .attrError
  | some nm =>
    match i.descriptionA with
    | none => .error .attrError
    | some d =>
      match i.valuesA with
      | none => .error .attrError
      | some vs =>
        match generate_table vs with
        | .error e => .error e
        | .ok t =>
          .ok ("## " ++ nm ++ "\n\n" ++ (if d = "" then "" else d ++ "\n") ++ t)

/-- The `Class` section of a document (lines 120-135). -/
def classSection (i : Inst) : Except GErr String :=
  match i.nameA with
  | none => .error .attrError
  | some nm =>
    match i.descriptionA with
    | none => .error .attrError
    | some d =>
      match i.membersA with
      | none => .error .attrError
      | some ms =>
        match i.functionsA with
        | none => .error .attrError
        | some fs =>
          match i.hooksA with
          | none => .error .attrError
          | some hs =>
            match (if ms.isEmpty then .ok "" else signed_page ms "Members" : Except GErr String) with
            | .error e => .error e
            | .ok mPart =>
              match (if fs.isEmpty then .ok "" else signed_page fs "Functions" : Except GErr String) with
              | .error e => .error e
              | .ok fPart =>
                match (if hs.isEmpty then .ok "" else signed_page hs "Hooks" : Except GErr String) with
                | .error e => .error e
                | .ok hPart =>
                  .ok ("## " ++ nm ++ "\n\n" ++ (if d = "" then "" else d ++ "\n\n")
                    ++ mPart ++ fPart ++ hPart)

/-- The per-record `match type` loop of `generate_docs` (lines 113-137):
only `Enum` and `Class` contribute a section per record. -/
def sectionsFor (ty : String) : List (String × Inst) → Except GErr String
  | [] => .ok ""
  | (_, i) :: rest =>
    match (if ty = "Enum" then enumSection i
           else if ty = "Class" then classSection i
           else .ok "" : Except GErr String) with
    | .error e => .error e
    | .ok s =>
      match sectionsFor ty rest with
      | .error e => .error e
      | .ok srest => .ok (s ++ srest)

/-- The trailing `match type` of `generate_docs` (lines 138-150): the
`Constant` document ends with one table of all top-level constants, the
`Function` and `Hook` documents with the described signatures. -/
def trailerFor (ty : String) (d : List (String × Inst)) : Except GErr String :=
  if ty = "Constant" then generate_table (d.map Prod.snd)
  else if ty = "Function" ∨ ty = "Hook" then
    match describeAll 2 (d.map Prod.snd) with
    | .error e => .error e
    | .ok ds => .ok (joinSep "\n" ds ++ "\n")
  else .ok ""

/-- Python `s[:-1]`: drop the last character. -/
def dropLastChar (s : String) : String := ⟨s.data.dropLast⟩

/-- One document of `generate_docs` (per outer-dictionary entry): title
line, sections, trailer, and the final `[:-1]`. -/
def docFor (category version ty : String) (d : List (String × Inst)) : Except GErr String :=
  match sectionsFor ty d with
  | .error e => .error e
  | .ok secs =>
    match trailerFor ty d with
    | .error e => .error e
    | .ok tr =>
      .ok (dropLastChar
        ("# VScript " ++ category ++ " " ++ ((dictGet pretty_names ty).getD "") ++ ", version "
          ++ version ++ "\n\nGenerated by Macosaro\n\n" ++ secs ++ tr))

/-- `generate_docs(info_dict, category)` (lines 109-154 of the source):
one rendered document per outer-dictionary entry, in insertion order
`Enum`, `Constant`, `Class`, `Function`, `Hook`. -/
def generate_docs (info : Info) (category version : String) : Except GErr (List String) :=
  match docFor category version "Enum" info.enums with
  | .error e => .error e
  | .ok d0 =>
    match docFor category version "Constant" info.constants with
    | .error e => .error e
    | .ok d1 =>
      match docFor category version "Class" info.classes with
      | .error e => .error e
      | .ok d2 =>
        match docFor category version "Function" info.functions with
        | .error e => .error e
        | .ok d3 =>
          match docFor category version "Hook" info.hooks with
          | .error e => .error e
          | .ok d4 => .ok [d0, d1, d2, d3, d4]

/-- `docs[n]` with the `IndexError` of an out-of-range index. -/
def docAt (docs : List String) (n : Nat) : Except GErr String :=
  match docs.get? n with
  | none => .error .indexError
  | some d => .ok d

/-- The module-level script (lines 39-181 of the source): split off the
version line (`ValueError` when the dump has no newline), split the body
at the literal `\nDOCUMENTATION_CLIENT\n` delimiter (`ValueError` unless
exactly two pieces result), gather and render the server context, then
the client context, and only then produce the ten `(path, content)` write
pairs.  Both contexts are fully parsed and rendered before the first
directory creation or file write, so any failure yields no writes at
all. -/
def mainModel (dump : String) : Except GErr (List (String × String)) :=
  match pySplitOnce dump "\n" with
  | none => .error .valueError
  | some (version, body) =>
    match pySplitExact2 body "\nDOCUMENTATION_CLIENT\n" with
    | none => .error .valueError
    | some (server_text, client_text) =>
      match gather_info server_text with
      | .error e => .error e
      | .ok sInfo =>
        match generate_docs sInfo "Server" version with
        | .error e => .error e
        | .ok sDocs =>
          match gather_info client_text with
          | .error e => .error e
          | .ok cInfo =>
            match generate_docs cInfo "Client" version with
            | .error e => .error e
            | .ok cDocs =>
              match docAt sDocs 0, docAt sDocs 1, docAt sDocs 2, docAt sDocs 3, docAt sDocs 4 with
              | .ok s0, .ok s1, .ok s2, .ok s3, .ok s4 =>
                match docAt cDocs 0, docAt cDocs 1, docAt cDocs 2, docAt cDocs 3, docAt cDocs 4 with
                | .ok c0, .ok c1, .ok c2, .ok c3, .ok c4 =>
                  .ok [("server/enums.md", s0), ("server/constants.md", s1),
                       ("server/classes.md", s2), ("server/functions.md", s3),
                       ("server/hooks.md", s4), ("client/enums.md", c0),
                       ("client/constants.md", c1), ("client/classes.md", c2),
                       ("client/functions.md", c3), ("client/hooks.md", c4)]
                | _, _, _, _, _ => .error .indexError
              | _, _, _, _, _ => .error .indexError

/-- Is the first character (if any) not a Python whitespace character? -/
def headNotSpace : List Char → Bool
  | [] => true
  | c :: _ => !isPySpace c

/-- Is `r` a record that files itself under `info["Enum"][E]` (final
`Type` attribute `Enum`, final `Name` attribute `E`)? -/
def isEnumNamedB (E : String) (r : Inst) : Bool :=
  (r.typeA == some "Enum") && (r.nameA == some E)

/-- Is `r` a `Constant` record whose name's `"."`-head is `E` (the
records `gather_info` appends to enum `E`'s `Values`)? -/
def isChildB (E : String) (r : Inst) : Bool :=
  (r.typeA == some "Constant") &&
    (match r.nameA with
     | some nm => pySplitHead nm "." == E
     | none => false)

/-- Number of bindings of key `k` in an association list (a Python dict
always has at most one). -/
def keyCount (d : List (String × Inst)) (k : String) : Nat :=
  d.countP (fun p => p.1 == k)

/-- A parsed `Enum: Colors` block. -/
def cEnumColors : Inst :=
  .mk [("Type", "Enum"), ("Name", "Colors"), ("Description", "")] (some []) none none none

/-- A parsed `Constant: Colors.RED` block. -/
def cConstRed : Inst :=
  .mk [("Type", "Constant"), ("Name", "Colors.RED"), ("Value", "1"), ("Description", "")]
    none none none none

/-- The classification of enum, constant, then a second fresh enum of the
same name (the replacement scenario). -/
def c10Res : Info :=
  ⟨[("Colors", cEnumColors)], [("Colors.RED", cConstRed)], [], [], []⟩

/-- The classification of enum then constant (the nesting scenario). -/
def c4Res : Info :=
  ⟨[("Colors", cEnumColors.setValues [cConstRed])], [("Colors.RED", cConstRed)], [], [], []⟩

/-- A decorative separator line: a run of exactly 37 `'='` characters,
matching the source regex `={37}`. -/
def eqSep : String := ⟨List.replicate 37 '='⟩

/-! ### Dictionary lemmas -/

theorem dictGet_dictSet_self {α : Type} (d : List (String × α)) (k : String) (v : α) :
    dictGet (dictSet d k v) k = some v := by
  induction d with
  | nil => simp [dictGet, dictSet]
  | cons p rest ih =>
    obtain ⟨k', v'⟩ := p
    by_cases h : k' = k
    · simp [dictSet, dictGet, h]
    · simp [dictSet, dictGet, h, ih]

theorem dictGet_dictSet_ne {α : Type} (d : List (String × α)) (k j : String) (v : α)
    (h : k ≠ j) : dictGet (dictSet d k v) j = dictGet d j := by
  induction d with
  | nil => simp [dictGet, dictSet, h]
  | cons p rest ih =>
    obtain ⟨k', v'⟩ := p
    by_cases h' : k' = k
    · subst h'
      simp [dictSet, dictGet, h]
    · simp [dictSet, dictGet, h', ih]

theorem dictGet_dictSet_isSome {α : Type} (d : List (String × α)) (k j : String) (v : α)
    (h : (dictGet d j).isSome) : (dictGet (dictSet d k v) j).isSome := by
  by_cases hk : k = j
  · subst hk
    simp [dictGet_dictSet_self]
  · rwa [dictGet_dictSet_ne d k j v hk]

/-! ### Record-parser lemmas (`Instance.__init__`) -/

theorem instLines_isSome_iff :
    ∀ (ls : List String) (attrs : List (String × String))
      (v f m h : Option (List Inst)),
      (instLines attrs v f m h ls).isSome ↔ ∀ l ∈ ls, (pyFindFirst l).isSome := by
  intro ls
  induction ls with
  | nil => intro attrs v f m h; simp [instLines]
  | cons l ls ih =>
    intro attrs v f m h
    cases hpf : pyFindFirst l with
    | none => simp [instLines, hpf]
    | some kv =>
      obtain ⟨k, v2⟩ := kv
      cases hty : dictGet attrs "Type" with
      | none => simp [instLines, hpf, hty, ih]
      | some _ => simp [instLines, hpf, hty, ih]

theorem instLines_typeA_of_present :
    ∀ (ls : List String) (attrs : List (String × String))
      (v f m h : Option (List Inst)) (i : Inst) (t : String),
      dictGet attrs "Type" = some t →
      (∀ l ∈ ls, ∀ k' v' : String, pyFindFirst l = some (k', v') → k' ≠ "Type") →
      instLines attrs v f m h ls = some i → i.typeA = some t := by
  intro ls
  induction ls with
  | nil =>
    intro attrs v f m h i t hty _ heq
    simp only [instLines] at heq
    cases hdesc : dictGet attrs "Description" with
    | none =>
      rw [hdesc] at heq
      cases heq
      simp only [Inst.typeA, Inst.getA, Inst.attrs]
      rw [dictGet_dictSet_ne _ _ _ _ (by decide)]
      exact hty
    | some d =>
      rw [hdesc] at heq
      cases heq
      simpa [Inst.typeA, Inst.getA, Inst.attrs] using hty
  | cons l ls ih =>
    intro attrs v f m h i t hty hnone heq
    cases hpf : pyFindFirst l with
    | none => simp [instLines, hpf] at heq
    | some kv =>
      obtain ⟨k, v2⟩ := kv
      have hkt : k ≠ "Type" := hnone l (by simp) k v2 hpf
      simp only [instLines, hpf, hty] at heq
      exact ih _ _ _ _ _ _ _ (by rw [dictGet_dictSet_ne _ _ _ _ hkt]; exact hty)
        (fun l' hl' => hnone l' (by simp [hl'])) heq

theorem instLines_typeA_isSome :
    ∀ (ls : List String) (attrs : List (String × String))
      (v f m h : Option (List Inst)) (i : Inst),
      (dictGet attrs "Type").isSome →
      instLines attrs v f m h ls = some i → (i.typeA).isSome := by
  intro ls
  induction ls with
  | nil =>
    intro attrs v f m h i hty heq
    simp only [instLines] at heq
    cases hdesc : dictGet attrs "Description" with
    | none =>
      rw [hdesc] at heq
      cases heq
      simp only [Inst.typeA, Inst.getA, Inst.attrs]
      rw [dictGet_dictSet_ne _ _ _ _ (by decide)]
      exact hty
    | some d =>
      rw [hdesc] at heq
      cases heq
      simpa [Inst.typeA, Inst.getA, Inst.attrs] using hty
  | cons l ls ih =>
    intro attrs v f m h i hty heq
    cases hpf : pyFindFirst l with
    | none => simp [instLines, hpf] at heq
    | some kv =>
      obtain ⟨k, v2⟩ := kv
      cases hty' : dictGet attrs "Type" with
      | none => rw [hty'] at hty; simp at hty
      | some t =>
        simp only [instLines, hpf, hty'] at heq
        exact ih _ _ _ _ _ _ (dictGet_dictSet_isSome _ _ _ _ (by simp [hty'])) heq

/-- C6: `Instance.__init__` followed by the immediate `inst.Type` access
(the first use `gather_info` makes of the record) fails if and only if the
block is empty or some line of the block has no match of the
`key: value` regex; on every other block it produces exactly one
record. -/
theorem C6_theorem (lines : List String) :
    ((instInit lines).bind Inst.typeA) = none ↔
      (lines = [] ∨ ∃ l ∈ lines, pyFindFirst l = none) := by
  cases lines with
  | nil => simp [instInit, instLines, Inst.typeA, Inst.getA, Inst.attrs, dictGet, dictSet]
  | cons l ls =>
    constructor
    · intro hnone
      cases heq : instInit (l :: ls) with
      | none =>
        have hni : ¬ (instLines [] none none none none (l :: ls)).isSome := by
          simp only [instInit] at heq
          rw [heq]
          simp
        rw [instLines_isSome_iff] at hni
        push_neg at hni
        obtain ⟨l', hl', hbad⟩ := hni
        refine Or.inr ⟨l', hl', ?_⟩
        cases h' : pyFindFirst l' with
        | none => rfl
        | some _ => rw [h'] at hbad; simp at hbad
      | some i =>
        rw [heq] at hnone
        simp only [Option.some_bind] at hnone
        cases hpf : pyFindFirst l with
        | none => exact Or.inr ⟨l, by simp, hpf⟩
        | some kv =>
          obtain ⟨k, v2⟩ := kv
          exfalso
          simp only [instInit, instLines, hpf, dictGet] at heq
          have := instLines_typeA_isSome ls _ _ _ _ _ _
            (by rw [dictGet_dictSet_ne _ _ _ _ (by decide), dictGet_dictSet_self]; simp) heq
          rw [hnone] at this
          simp at this
    · intro hcases
      rcases hcases with h | ⟨l', hl', hbad⟩
      · cases h
      · have : ¬ (instLines [] none none none none (l :: ls)).isSome := by
          rw [instLines_isSome_iff]
          intro hall
          have := hall l' hl'
          rw [hbad] at this
          simp at this
        cases heq : instInit (l :: ls) with
        | none => simp
        | some i => simp only [instInit] at heq; rw [heq] at this; simp at this

/-- C3 (amended): the record's `Type` equals the key of the block's first
line provided no later line's key is itself `Type`; a later `Type: ...`
line overwrites the attribute via `setattr`. -/
theorem C3_theorem (l0 : String) (ls : List String) (k v : String) (i : Inst)
    (h0 : pyFindFirst l0 = some (k, v))
    (h1 : ∀ l ∈ ls, ∀ k' v' : String, pyFindFirst l = some (k', v') → k' ≠ "Type")
    (h2 : instInit (l0 :: ls) = some i) :
    i.typeA = some k := by
  simp only [instInit, instLines, h0, dictGet] at h2
  exact instLines_typeA_of_present ls _ _ _ _ _ _ _
    (by rw [dictGet_dictSet_ne _ _ _ _ (by decide), dictGet_dictSet_self]) h1 h2

/-- C3 counterexample: on the block `Enum: Foo` / `Type: Bar` the later
`Type` line changes the record's `Type` from `Enum` to `Bar`. -/
theorem C3_counterexample :
    ((instInit ["Enum: Foo", "Type: Bar"]).bind Inst.typeA) = some "Bar" ∧
      ("Bar" : String) ≠ "Enum" := ⟨rfl, by decide⟩

/-- C3 witness: a concrete two-line block whose later lines do not use the
key `Type` keeps the first line's key as its `Type`. -/
theorem C3_witness :
    Inst.typeA (.mk [("Type", "Enum"), ("Name", "Foo"), ("Description", "d")]
      (some []) none none none) = some "Enum" :=
  C3_theorem "Enum: Foo" ["Description: d"] "Enum" "Foo" _ rfl
    (by
      intro l hl k' v' hkv
      simp only [List.mem_singleton] at hl
      subst hl
      rw [show pyFindFirst "Description: d" = some ("Description", "d") from rfl] at hkv
      simp only [Option.some_inj, Prod.mk.injEq] at hkv
      rw [← hkv.1]
      decide)
    rfl

/-! ### Line-splitting lemmas (the regex `([^:]+):\s*(.*)`) -/

theorem dropColons_append_of (kd rest : List Char) (h1 : kd ≠ [])
    (h2 : ∀ c ∈ kd, c ≠ ':') : dropColons (kd ++ rest) = kd ++ rest := by
  cases kd with
  | nil => exact absurd rfl h1
  | cons c cs =>
    have hc : c ≠ ':' := h2 c (by simp)
    simp [dropColons, hc]

theorem splitColon_append (kd rest : List Char) (h2 : ∀ c ∈ kd, c ≠ ':') :
    splitColon (kd ++ ':' :: rest) = some (kd, rest) := by
  induction kd with
  | nil => simp [splitColon]
  | cons c cs ih =>
    have hc : c ≠ ':' := h2 c (by simp)
    have ih' := ih (fun c' hc' => h2 c' (by simp [hc']))
    simp [splitColon, hc, ih']

theorem dropSpaces_of_head (cs : List Char) (h : headNotSpace cs = true) :
    dropSpaces cs = cs := by
  cases cs with
  | nil => rfl
  | cons c cs' =>
    simp only [headNotSpace, Bool.not_eq_true'] at h
    simp [dropSpaces, h]

/-- The regex split of a line `key ++ ": " ++ value`: when the key is
non-empty and colon-free and the value does not begin with whitespace,
the key/value pair is recovered verbatim — colons inside the value
(e.g. a `::`-qualified signature) stay in the value. -/
theorem pyFindFirst_append (k v : String) (hk1 : k.data ≠ [])
    (hk2 : ∀ c ∈ k.data, c ≠ ':') (hv : headNotSpace v.data = true) :
    pyFindFirst (k ++ ": " ++ v) = some (k, v) := by
  have hdata : (k ++ ": " ++ v).data = k.data ++ ':' :: ' ' :: v.data := by
    show (k.data ++ [':', ' ']) ++ v.data = _
    simp
  have hsp : dropSpaces (' ' :: v.data) = v.data := by
    have : dropSpaces (' ' :: v.data) = dropSpaces v.data := rfl
    rw [this, dropSpaces_of_head _ hv]
  simp only [pyFindFirst, pyFindFirstL, hdata,
    dropColons_append_of _ _ hk1 hk2, splitColon_append _ _ hk2, hsp]

/-- C8: a record line is split at its first colon (with the following
whitespace stripped greedily); every later colon of the line — for
example the `::` of a `Signature` value — is preserved inside the stored
value. -/
theorem C8_theorem (k v : String) (hk1 : k.data ≠ [])
    (hk2 : ∀ c ∈ k.data, c ≠ ':') (hv : headNotSpace v.data = true) :
    pyFindFirst (k ++ ": " ++ v) = some (k, v) :=
  pyFindFirst_append k v hk1 hk2 hv

/-- C8 witness: a signature value containing `::` and a further colon is
stored verbatim. -/
theorem C8_witness :
    pyFindFirst ("Signature" ++ ": " ++ "void CBaseEntity::Use(int :: x)") =
      some ("Signature", "void CBaseEntity::Use(int :: x)") :=
  C8_theorem "Signature" "void CBaseEntity::Use(int :: x)"
    (by decide) (by decide) (by decide)

/-- C9: parsing a valid `Constant` block (`Constant`/`Value`/`Description`
lines, or no `Description` line at all) and rendering the record as a
table row preserves `Name` and `Value` verbatim, and the description cell
is rendered exactly when the parsed description is non-empty. -/
theorem C9_theorem (n v d : String)
    (hn : headNotSpace n.data = true) (hv : headNotSpace v.data = true)
    (hd : headNotSpace d.data = true) :
    instInit ["Constant: " ++ n, "Value: " ++ v, "Description: " ++ d] =
        some (.mk [("Type", "Constant"), ("Name", n), ("Value", v), ("Description", d)]
          none none none none) ∧
      tableRow (.mk [("Type", "Constant"), ("Name", n), ("Value", v), ("Description", d)]
          none none none none) =
        .ok ("| " ++ n ++ " | " ++ v ++ " |"
          ++ (if d = "" then "" else " " ++ d ++ " |") ++ "\n") ∧
      instInit ["Constant: " ++ n, "Value: " ++ v] =
        some (.mk [("Type", "Constant"), ("Name", n), ("Value", v), ("Description", "")]
          none none none none) ∧
      tableRow (.mk [("Type", "Constant"), ("Name", n), ("Value", v), ("Description", "")]
          none none none none) =
        .ok ("| " ++ n ++ " | " ++ v ++ " |" ++ "\n") := by
  have h1 : pyFindFirst ("Constant: " ++ n) = some ("Constant", n) :=
    pyFindFirst_append "Constant" n (by decide) (by decide) hn
  have h2 : pyFindFirst ("Value: " ++ v) = some ("Value", v) :=
    pyFindFirst_append "Value" v (by decide) (by decide) hv
  have h3 : pyFindFirst ("Description: " ++ d) = some ("Description", d) :=
    pyFindFirst_append "Description" d (by decide) (by decide) hd
  refine ⟨?_, ?_, ?_, ?_⟩
  · simp [instInit, instLines, h1, h2, h3, dictGet, dictSet]
  · simp [tableRow, Inst.nameA, Inst.descriptionA, Inst.getA, Inst.attrs, dictGet]
  · simp [instInit, instLines, h1, h2, dictGet, dictSet]
  · simp [tableRow, Inst.nameA, Inst.descriptionA, Inst.getA, Inst.attrs, dictGet]

/-- C9 witness: a concrete constant block round-trips through parse and
row rendering. -/
theorem C9_witness :
    tableRow (.mk [("Type", "Constant"), ("Name", "MAX_COORD"), ("Value", "16384"),
        ("Description", "Maximum coordinate")] none none none none) =
      .ok "| MAX_COORD | 16384 | Maximum coordinate |\n" :=
  ( C9_theorem "MAX_COORD" "16384" "Maximum coordinate"
    (by decide) (by decide) (by decide)).2.1

/-! ### Record accessor lemmas -/

theorem valuesA_setValues (e : Inst) (vs : List Inst) :
    (e.setValues vs).valuesA = some vs := by
  cases e; rfl

theorem setValues_setValues (e : Inst) (a b : List Inst) :
    (e.setValues a).setValues b = e.setValues b := by
  cases e; rfl

theorem setValues_self (e : Inst) (vs : List Inst) (h : e.valuesA = some vs) :
    e.setValues vs = e := by
  cases e with
  | mk a v f m hk =>
    simp only [Inst.valuesA] at h
    simp [Inst.setValues, h]

theorem isEnumNamedB_iff (E : String) (r : Inst) :
    isEnumNamedB E r = true ↔ (r.typeA = some "Enum" ∧ r.nameA = some E) := by
  simp [isEnumNamedB]

theorem isChildB_iff (E : String) (r : Inst) :
    isChildB E r = true ↔
      (r.typeA = some "Constant" ∧ ∃ nm, r.nameA = some nm ∧ pySplitHead nm "." = E) := by
  cases hnm : r.nameA with
  | none => simp [isChildB, hnm]
  | some nm => simp [isChildB, hnm]

/-! ### The shape of a successful classification step -/

/-- Every successful outcome of the loop body of `gather_info` (lines
59-80 of the source), by exhaustive case analysis: a `Constant` is always
filed in the top-level `Constant` dictionary and is additionally appended
to an enum's `Values` when its `"."`-head names a known enum; `Function`
and `Hook` records either nest under a known class or are filed; a
`Member` only succeeds by nesting; `Enum` and `Class` records are always
filed under their own dictionary. -/
theorem classifyStep_ok_shape (st st' : Info) (r : Inst)
    (h : classifyStep st r = .ok st') :
    (∃ nm, r.typeA = some "Constant" ∧ r.nameA = some nm ∧
      ((dictGet st.enums (pySplitHead nm ".") = none ∧
          st' = { st with constants := dictSet st.constants nm r }) ∨
       (∃ e vs, dictGet st.enums (pySplitHead nm ".") = some e ∧ e.valuesA = some vs ∧
          st' = { st with
                  enums := dictSet st.enums (pySplitHead nm ".") (e.setValues (vs ++ [r])),
                  constants := dictSet st.constants nm r }))) ∨
    (∃ nm, r.typeA = some "Function" ∧ r.nameA = some nm ∧
      ((dictGet st.classes (pySplitHead nm "::") = none ∧
          st' = { st with functions := dictSet st.functions nm r }) ∨
       (∃ cl fs, dictGet st.classes (pySplitHead nm "::") = some cl ∧ cl.functionsA = some fs ∧
          st' = { st with
                  classes := dictSet st.classes (pySplitHead nm "::") (cl.setFunctions (fs ++ [r])) }))) ∨
    (∃ nm cl ms, r.typeA = some "Member" ∧ r.nameA = some nm ∧
      dictGet st.classes (pySplitHead nm ".") = some cl ∧ cl.membersA = some ms ∧
      st' = { st with
              classes := dictSet st.classes (pySplitHead nm ".") (cl.setMembers (ms ++ [r])) }) ∨
    (∃ nm, r.typeA = some "Hook" ∧ r.nameA = some nm ∧
      ((dictGet st.classes (pySplitHead nm " -> ") = none ∧
          st' = { st with hooks := dictSet st.hooks nm r }) ∨
       (∃ cl hs, dictGet st.classes (pySplitHead nm " -> ") = some cl ∧ cl.hooksA = some hs ∧
          st' = { st with
                  classes := dictSet st.classes (pySplitHead nm " -> ") (cl.setHooks (hs ++ [r])) }))) ∨
    (∃ nm, r.typeA = some "Enum" ∧ r.nameA = some nm ∧
      st' = { st with enums := dictSet st.enums nm r }) ∨
    (∃ nm, r.typeA = some "Class" ∧ r.nameA = some nm ∧
      st' = { st with classes := dictSet st.classes nm r }) := by
  cases hty : r.typeA with
  | none => simp [classifyStep, hty] at h
  | some ty =>
    by_cases hc : ty = "Constant"
    · subst hc
      cases hnm : r.nameA with
      | none => simp [classifyStep, hty, hnm, nestEnumConst] at h
      | some nm =>
        cases hdg : dictGet st.enums (pySplitHead nm ".") with
        | none =>
          simp [classifyStep, hty, hnm, nestEnumConst, hdg, fileStandalone,
            Info.dictOf, Info.setDict] at h
          subst h
          exact Or.inl ⟨nm, rfl, rfl, Or.inl ⟨hdg, rfl⟩⟩
        | some e =>
          cases hva : e.valuesA with
          | none => simp [classifyStep, hty, hnm, nestEnumConst, hdg, hva] at h
          | some vs =>
            simp [classifyStep, hty, hnm, nestEnumConst, hdg, hva, fileStandalone,
              Info.dictOf, Info.setDict] at h
            subst h
            exact Or.inl ⟨nm, rfl, rfl, Or.inr ⟨e, vs, hdg, hva, rfl⟩⟩
    · by_cases hf : ty = "Function"
      · subst hf
        cases hnm : r.nameA with
        | none => simp [classifyStep, hty, hnm] at h
        | some nm =>
          cases hdg : dictGet st.classes (pySplitHead nm "::") with
          | none =>
            simp [classifyStep, hty, hnm, chainFn, hdg, fileStandalone,
              Info.dictOf, Info.setDict] at h
            subst h
            exact Or.inr (Or.inl ⟨nm, rfl, rfl, Or.inl ⟨hdg, rfl⟩⟩)
          | some cl =>
            cases hfa : cl.functionsA with
            | none => simp [classifyStep, hty, hnm, chainFn, hdg, hfa] at h
            | some fs =>
              simp [classifyStep, hty, hnm, chainFn, hdg, hfa] at h
              subst h
              exact Or.inr (Or.inl ⟨nm, rfl, rfl, Or.inr ⟨cl, fs, hdg, hfa, rfl⟩⟩)
      · by_cases hm : ty = "Member"
        · subst hm
          cases hnm : r.nameA with
          | none => simp [classifyStep, hty, hnm] at h
          | some nm =>
            cases hdg : dictGet st.classes (pySplitHead nm ".") with
            | none =>
              simp [classifyStep, hty, hnm, chainMem, hdg, fileStandalone, Info.dictOf] at h
            | some cl =>
              cases hma : cl.membersA with
              | none => simp [classifyStep, hty, hnm, chainMem, hdg, hma] at h
              | some ms =>
                simp [classifyStep, hty, hnm, chainMem, hdg, hma] at h
                subst h
                exact Or.inr (Or.inr (Or.inl ⟨nm, cl, ms, rfl, rfl, hdg, hma, rfl⟩))
        · by_cases hh : ty = "Hook"
          · subst hh
            cases hnm : r.nameA with
            | none => simp [classifyStep, hty, hnm] at h
            | some nm =>
              cases hdg : dictGet st.classes (pySplitHead nm " -> ") with
              | none =>
                simp [classifyStep, hty, hnm, chainHook, hdg, fileStandalone,
                  Info.dictOf, Info.setDict] at h
                subst h
                exact Or.inr (Or.inr (Or.inr (Or.inl ⟨nm, rfl, rfl, Or.inl ⟨hdg, rfl⟩⟩)))
              | some cl =>
                cases hha : cl.hooksA with
                | none => simp [classifyStep, hty, hnm, chainHook, hdg, hha] at h
                | some hs =>
                  simp [classifyStep, hty, hnm, chainHook, hdg, hha] at h
                  subst h
                  exact Or.inr (Or.inr (Or.inr (Or.inl ⟨nm, rfl, rfl,
                    Or.inr ⟨cl, hs, hdg, hha, rfl⟩⟩)))
          · -- the final `else`: standalone filing under an arbitrary type tag
            simp only [classifyStep, hty] at h
            rw [if_neg hc] at h
            simp only [if_neg hf, if_neg hm, if_neg hh] at h
            unfold fileStandalone at h
            cases hnm : r.nameA with
            | none =>
              rw [hnm] at h
              cases hdo : st.dictOf ty <;> rw [hdo] at h <;> simp at h
            | some nm =>
              rw [hnm] at h
              by_cases he : ty = "Enum"
              · subst he
                simp [Info.dictOf, Info.setDict] at h
                subst h
                exact Or.inr (Or.inr (Or.inr (Or.inr (Or.inl ⟨nm, rfl, rfl, rfl⟩))))
              · by_cases hcl : ty = "Class"
                · subst hcl
                  simp [Info.dictOf, Info.setDict] at h
                  subst h
                  exact Or.inr (Or.inr (Or.inr (Or.inr (Or.inr ⟨nm, rfl, rfl, rfl⟩))))
                · exfalso
                  have hdo : st.dictOf ty = none := by
                    unfold Info.dictOf
                    split
                    · exact absurd rfl he
                    · exact absurd rfl hc
                    · exact absurd rfl hcl
                    · exact absurd rfl hf
                    · exact absurd rfl hh
                    · rfl
                  rw [hdo] at h
                  simp at h

/-! ### Step lemmas derived from the shape lemma -/

theorem isChildB_false_of_type (E : String) (r : Inst) (t : String)
    (hty : r.typeA = some t) (hne : t ≠ "Constant") : isChildB E r = false := by
  cases hnm : r.nameA <;> simp [isChildB, hty, hnm, hne]

theorem isChildB_false_of_head (E : String) (r : Inst) (nm : String)
    (hnm : r.nameA = some nm) (hne : pySplitHead nm "." ≠ E) : isChildB E r = false := by
  cases hty : r.typeA <;> simp [isChildB, hty, hnm, hne]

theorem isChildB_true_of (E : String) (r : Inst) (nm : String)
    (hty : r.typeA = some "Constant") (hnm : r.nameA = some nm)
    (hhd : pySplitHead nm "." = E) : isChildB E r = true := by
  simp [isChildB, hty, hnm, hhd]

/-- A step by a record that is not an `Enum` named `E` cannot create the
enum entry `E`. -/
theorem step_enum_none (st st' : Info) (r : Inst) (E : String)
    (h : classifyStep st r = .ok st') (hne : isEnumNamedB E r = false)
    (h0 : dictGet st.enums E = none) : dictGet st'.enums E = none := by
  rcases classifyStep_ok_shape st st' r h with
    ⟨nm, hty, hnm, ⟨hdg, hst⟩ | ⟨e, vs, hdg, hva, hst⟩⟩ |
    ⟨nm, hty, hnm, ⟨hdg, hst⟩ | ⟨cl, fs, hdg, hfa, hst⟩⟩ |
    ⟨nm, cl, ms, hty, hnm, hdg, hma, hst⟩ |
    ⟨nm, hty, hnm, ⟨hdg, hst⟩ | ⟨cl, hs, hdg, hha, hst⟩⟩ |
    ⟨nm, hty, hnm, hst⟩ | ⟨nm, hty, hnm, hst⟩
  · subst hst; exact h0
  · subst hst
    have hne2 : pySplitHead nm "." ≠ E := by
      intro hEq; rw [hEq, h0] at hdg; cases hdg
    show dictGet (dictSet st.enums (pySplitHead nm ".") (e.setValues (vs ++ [r]))) E = none
    rw [dictGet_dictSet_ne _ _ _ _ hne2]; exact h0
  · subst hst; exact h0
  · subst hst; exact h0
  · subst hst; exact h0
  · subst hst; exact h0
  · subst hst; exact h0
  · subst hst
    have hnmE : nm ≠ E := by
      intro hEq; subst hEq; rw [isEnumNamedB, hty, hnm] at hne; simp at hne
    show dictGet (dictSet st.enums nm r) E = none
    rw [dictGet_dictSet_ne _ _ _ _ hnmE]; exact h0
  · subst hst; exact h0

/-- A step by a record that is not an `Enum` named `E` leaves the enum
entry `E` in place, appending the record to its `Values` exactly when the
record is a constant child of `E`. -/
theorem step_enum_entry (st st' : Info) (r : Inst) (E : String) (e : Inst) (vs : List Inst)
    (h : classifyStep st r = .ok st') (hne : isEnumNamedB E r = false)
    (h0 : dictGet st.enums E = some e) (hvs : e.valuesA = some vs) :
    dictGet st'.enums E =
      some (e.setValues (vs ++ (if isChildB E r then [r] else []))) := by
  rcases classifyStep_ok_shape st st' r h with
    ⟨nm, hty, hnm, ⟨hdg, hst⟩ | ⟨e', vs', hdg, hva, hst⟩⟩ |
    ⟨nm, hty, hnm, ⟨hdg, hst⟩ | ⟨cl, fs, hdg, hfa, hst⟩⟩ |
    ⟨nm, cl, ms, hty, hnm, hdg, hma, hst⟩ |
    ⟨nm, hty, hnm, ⟨hdg, hst⟩ | ⟨cl, hs, hdg, hha, hst⟩⟩ |
    ⟨nm, hty, hnm, hst⟩ | ⟨nm, hty, hnm, hst⟩
  · subst hst
    have hhd : pySplitHead nm "." ≠ E := by
      intro hEq; rw [hEq, h0] at hdg; cases hdg
    rw [isChildB_false_of_head E r nm hnm hhd]
    simp [setValues_self e vs hvs, h0]
  · subst hst
    by_cases hEq : pySplitHead nm "." = E
    · rw [hEq] at hdg
      rw [h0] at hdg
      cases hdg
      rw [hvs] at hva
      cases hva
      rw [isChildB_true_of E r nm hty hnm hEq]
      show dictGet (dictSet st.enums (pySplitHead nm ".") (e.setValues (vs ++ [r]))) E = _
      rw [hEq, dictGet_dictSet_self]
      simp
    · rw [isChildB_false_of_head E r nm hnm hEq]
      show dictGet (dictSet st.enums (pySplitHead nm ".") (e'.setValues (vs' ++ [r]))) E = _
      rw [dictGet_dictSet_ne _ _ _ _ hEq, h0]
      simp [setValues_self e vs hvs]
  · subst hst
    rw [isChildB_false_of_type E r "Function" hty (by decide)]
    simp [setValues_self e vs hvs, h0]
  · subst hst
    rw [isChildB_false_of_type E r "Function" hty (by decide)]
    simp [setValues_self e vs hvs, h0]
  · subst hst
    rw [isChildB_false_of_type E r "Member" hty (by decide)]
    simp [setValues_self e vs hvs, h0]
  · subst hst
    rw [isChildB_false_of_type E r "Hook" hty (by decide)]
    simp [setValues_self e vs hvs, h0]
  · subst hst
    rw [isChildB_false_of_type E r "Hook" hty (by decide)]
    simp [setValues_self e vs hvs, h0]
  · subst hst
    have hnmE : nm ≠ E := by
      intro hEq; subst hEq; rw [isEnumNamedB, hty, hnm] at hne; simp at hne
    rw [isChildB_false_of_type E r "Enum" hty (by decide)]
    show dictGet (dictSet st.enums nm r) E = _
    rw [dictGet_dictSet_ne _ _ _ _ hnmE, h0]
    simp [setValues_self e vs hvs]
  · subst hst
    rw [isChildB_false_of_type E r "Class" hty (by decide)]
    simp [setValues_self e vs hvs, h0]

/-- Filing an `Enum` record is always the standalone `else` branch. -/
theorem classifyStep_enum (st : Info) (r : Inst) (E : String)
    (hty : r.typeA = some "Enum") (hnm : r.nameA = some E) :
    classifyStep st r = .ok { st with enums := dictSet st.enums E r } := by
  simp [classifyStep, hty, hnm, fileStandalone, Info.dictOf, Info.setDict]

/-- Filing a `Class` record is always the standalone `else` branch. -/
theorem classifyStep_class (st : Info) (r : Inst) (n : String)
    (hty : r.typeA = some "Class") (hnm : r.nameA = some n) :
    classifyStep st r = .ok { st with classes := dictSet st.classes n r } := by
  simp [classifyStep, hty, hnm, fileStandalone, Info.dictOf, Info.setDict]

/-- A step by a record that is not a `Constant` named `n` does not change
the top-level constant entry `n`. -/
theorem step_constants_other (st st' : Info) (r : Inst) (n : String)
    (h : classifyStep st r = .ok st')
    (hnc : ¬(r.typeA = some "Constant" ∧ r.nameA = some n)) :
    dictGet st'.constants n = dictGet st.constants n := by
  rcases classifyStep_ok_shape st st' r h with
    ⟨nm, hty, hnm, ⟨hdg, hst⟩ | ⟨e', vs', hdg, hva, hst⟩⟩ |
    ⟨nm, hty, hnm, ⟨hdg, hst⟩ | ⟨cl, fs, hdg, hfa, hst⟩⟩ |
    ⟨nm, cl, ms, hty, hnm, hdg, hma, hst⟩ |
    ⟨nm, hty, hnm, ⟨hdg, hst⟩ | ⟨cl, hs, hdg, hha, hst⟩⟩ |
    ⟨nm, hty, hnm, hst⟩ | ⟨nm, hty, hnm, hst⟩ <;> subst hst
  · have hnmn : nm ≠ n := fun hEq => hnc ⟨hty, hEq ▸ hnm⟩
    show dictGet (dictSet st.constants nm r) n = _
    rw [dictGet_dictSet_ne _ _ _ _ hnmn]
  · have hnmn : nm ≠ n := fun hEq => hnc ⟨hty, hEq ▸ hnm⟩
    show dictGet (dictSet st.constants nm r) n = _
    rw [dictGet_dictSet_ne _ _ _ _ hnmn]
  all_goals rfl

/-- Every successfully classified `Constant` named `n` is filed in the
top-level `Constant` dictionary under `n` — also when it was nested under
an enum. -/
theorem step_files_constant (st st' : Info) (r : Inst) (n : String)
    (h : classifyStep st r = .ok st')
    (hty : r.typeA = some "Constant") (hnm : r.nameA = some n) :
    dictGet st'.constants n = some r := by
  rcases classifyStep_ok_shape st st' r h with
    ⟨nm, hty', hnm', ⟨hdg, hst⟩ | ⟨e', vs', hdg, hva, hst⟩⟩ |
    ⟨nm, hty', hnm', _⟩ | ⟨nm, cl, ms, hty', hnm', hdg, hma, hst⟩ |
    ⟨nm, hty', hnm', _⟩ | ⟨nm, hty', hnm', hst⟩ | ⟨nm, hty', hnm', hst⟩
  · subst hst
    rw [hnm] at hnm'
    cases hnm'
    show dictGet (dictSet st.constants n r) n = some r
    exact dictGet_dictSet_self _ _ _
  · subst hst
    rw [hnm] at hnm'
    cases hnm'
    show dictGet (dictSet st.constants n r) n = some r
    exact dictGet_dictSet_self _ _ _
  all_goals (rw [hty] at hty'; simp at hty')

/-! ### Classification over a list of records -/

theorem classifyList_append (xs ys : List Inst) : ∀ st : Info,
    classifyList st (xs ++ ys) =
      match classifyList st xs with
      | .ok st1 => classifyList st1 ys
      | .error e => .error e := by
  induction xs with
  | nil => intro st; simp [classifyList]
  | cons r rs ih =>
    intro st
    cases hstep : classifyStep st r with
    | error e => simp [classifyList, hstep]
    | ok st' => simp [classifyList, hstep, ih st']

theorem classifyList_enum_none (E : String) : ∀ (rs : List Inst) (st st' : Info),
    classifyList st rs = .ok st' → (∀ r ∈ rs, isEnumNamedB E r = false) →
    dictGet st.enums E = none → dictGet st'.enums E = none := by
  intro rs
  induction rs with
  | nil =>
    intro st st' h _ h0
    simp only [classifyList, Except.ok.injEq] at h
    exact h ▸ h0
  | cons r rs ih =>
    intro st st' h hall h0
    cases hstep : classifyStep st r with
    | error e => simp [classifyList, hstep] at h
    | ok st1 =>
      simp only [classifyList, hstep] at h
      exact ih st1 st' h (fun r' hr' => hall r' (by simp [hr']))
        (step_enum_none st st1 r E hstep (hall r (by simp)) h0)

theorem classifyList_enum_acc (E : String) : ∀ (rs : List Inst) (st st' : Info)
    (e : Inst) (vs : List Inst),
    classifyList st rs = .ok st' → (∀ r ∈ rs, isEnumNamedB E r = false) →
    dictGet st.enums E = some e → e.valuesA = some vs →
    dictGet st'.enums E = some (e.setValues (vs ++ rs.filter (isChildB E))) := by
  intro rs
  induction rs with
  | nil =>
    intro st st' e vs h _ h0 hvs
    simp only [classifyList, Except.ok.injEq] at h
    subst h
    simp [setValues_self e vs hvs, h0]
  | cons r rs ih =>
    intro st st' e vs h hall h0 hvs
    cases hstep : classifyStep st r with
    | error e' => simp [classifyList, hstep] at h
    | ok st1 =>
      simp only [classifyList, hstep] at h
      have hentry := step_enum_entry st st1 r E e vs hstep (hall r (by simp)) h0 hvs
      have hrec := ih st1 st' _ _ h (fun r' hr' => hall r' (by simp [hr'])) hentry
        (valuesA_setValues _ _)
      rw [setValues_setValues, List.append_assoc] at hrec
      rw [List.filter_cons]
      cases hch : isChildB E r with
      | true => simpa [hch] using hrec
      | false => simpa [hch] using hrec

theorem classifyList_constants_preserve (n : String) : ∀ (rs : List Inst) (st st' : Info),
    classifyList st rs = .ok st' →
    (∀ r ∈ rs, ¬(r.typeA = some "Constant" ∧ r.nameA = some n)) →
    dictGet st'.constants n = dictGet st.constants n := by
  intro rs
  induction rs with
  | nil =>
    intro st st' h _
    simp only [classifyList, Except.ok.injEq] at h
    exact h ▸ rfl
  | cons r rs ih =>
    intro st st' h hall
    cases hstep : classifyStep st r with
    | error e => simp [classifyList, hstep] at h
    | ok st1 =>
      simp only [classifyList, hstep] at h
      rw [ih st1 st' h (fun r' hr' => hall r' (by simp [hr']))]
      exact step_constants_other st st1 r n hstep (hall r (by simp))

/-! ### Key uniqueness of the dictionaries -/

theorem keyCount_dictSet_self (d : List (String × Inst)) (k : String) (v : Inst)
    (h : keyCount d k ≤ 1) : keyCount (dictSet d k v) k = 1 := by
  induction d with
  | nil => simp [keyCount, dictSet]
  | cons p rest ih =>
    obtain ⟨k', v'⟩ := p
    by_cases hk : k' = k
    · subst hk
      simp [dictSet, keyCount, List.countP_cons] at h ⊢
      exact h
    · have hb : (k' == k) = false := by simp [hk]
      have h' : keyCount rest k ≤ 1 := by
        simp only [keyCount, List.countP_cons, hb] at h
        simpa using h
      have hrec := ih h'
      simp only [keyCount, List.countP_cons, hb] at hrec ⊢
      simp only [dictSet, if_neg hk, List.countP_cons, hb]
      simpa using hrec

theorem keyCount_dictSet_ne (d : List (String × Inst)) (k j : String) (v : Inst)
    (h : k ≠ j) : keyCount (dictSet d k v) j = keyCount d j := by
  induction d with
  | nil => simp [keyCount, dictSet, h]
  | cons p rest ih =>
    obtain ⟨k', v'⟩ := p
    by_cases hk : k' = k
    · subst hk
      simp [dictSet, keyCount, List.countP_cons, h]
    · simp only [dictSet, if_neg hk, keyCount, List.countP_cons] at ih ⊢
      simp [ih]

theorem keyCount_dictSet_le (d : List (String × Inst)) (k : String) (v : Inst)
    (h : ∀ j, keyCount d j ≤ 1) : ∀ j, keyCount (dictSet d k v) j ≤ 1 := by
  intro j
  by_cases hk : k = j
  · subst hk
    rw [keyCount_dictSet_self d k v (h k)]
  · rw [keyCount_dictSet_ne d k j v hk]
    exact h j

/-- Each classification step keeps every dictionary a proper Python dict:
at most one binding per key. -/
theorem step_keyInv (st st' : Info) (r : Inst) (h : classifyStep st r = .ok st')
    (hinv : (∀ k, keyCount st.enums k ≤ 1) ∧ (∀ k, keyCount st.constants k ≤ 1) ∧
      (∀ k, keyCount st.classes k ≤ 1) ∧ (∀ k, keyCount st.functions k ≤ 1) ∧
      (∀ k, keyCount st.hooks k ≤ 1)) :
    (∀ k, keyCount st'.enums k ≤ 1) ∧ (∀ k, keyCount st'.constants k ≤ 1) ∧
      (∀ k, keyCount st'.classes k ≤ 1) ∧ (∀ k, keyCount st'.functions k ≤ 1) ∧
      (∀ k, keyCount st'.hooks k ≤ 1) := by
  obtain ⟨h1, h2, h3, h4, h5⟩ := hinv
  rcases classifyStep_ok_shape st st' r h with
    ⟨nm, hty, hnm, ⟨hdg, hst⟩ | ⟨e', vs', hdg, hva, hst⟩⟩ |
    ⟨nm, hty, hnm, ⟨hdg, hst⟩ | ⟨cl, fs, hdg, hfa, hst⟩⟩ |
    ⟨nm, cl, ms, hty, hnm, hdg, hma, hst⟩ |
    ⟨nm, hty, hnm, ⟨hdg, hst⟩ | ⟨cl, hs, hdg, hha, hst⟩⟩ |
    ⟨nm, hty, hnm, hst⟩ | ⟨nm, hty, hnm, hst⟩ <;> subst hst
  · exact ⟨h1, keyCount_dictSet_le _ _ _ h2, h3, h4, h5⟩
  · exact ⟨keyCount_dictSet_le _ _ _ h1, keyCount_dictSet_le _ _ _ h2, h3, h4, h5⟩
  · exact ⟨h1, h2, h3, keyCount_dictSet_le _ _ _ h4, h5⟩
  · exact ⟨h1, h2, keyCount_dictSet_le _ _ _ h3, h4, h5⟩
  · exact ⟨h1, h2, keyCount_dictSet_le _ _ _ h3, h4, h5⟩
  · exact ⟨h1, h2, h3, h4, keyCount_dictSet_le _ _ _ h5⟩
  · exact ⟨h1, h2, keyCount_dictSet_le _ _ _ h3, h4, h5⟩
  · exact ⟨keyCount_dictSet_le _ _ _ h1, h2, h3, h4, h5⟩
  · exact ⟨h1, h2, keyCount_dictSet_le _ _ _ h3, h4, h5⟩

theorem classifyList_keyInv : ∀ (rs : List Inst) (st st' : Info),
    classifyList st rs = .ok st' →
    ((∀ k, keyCount st.enums k ≤ 1) ∧ (∀ k, keyCount st.constants k ≤ 1) ∧
      (∀ k, keyCount st.classes k ≤ 1) ∧ (∀ k, keyCount st.functions k ≤ 1) ∧
      (∀ k, keyCount st.hooks k ≤ 1)) →
    (∀ k, keyCount st'.enums k ≤ 1) ∧ (∀ k, keyCount st'.constants k ≤ 1) ∧
      (∀ k, keyCount st'.classes k ≤ 1) ∧ (∀ k, keyCount st'.functions k ≤ 1) ∧
      (∀ k, keyCount st'.hooks k ≤ 1) := by
  intro rs
  induction rs with
  | nil =>
    intro st st' h hinv
    simp only [classifyList, Except.ok.injEq] at h
    exact h ▸ hinv
  | cons r rs ih =>
    intro st st' h hinv
    cases hstep : classifyStep st r with
    | error e => simp [classifyList, hstep] at h
    | ok st1 =>
      simp only [classifyList, hstep] at h
      exact ih st1 st' h (step_keyInv st st1 r hstep hinv)

/-- C10: when a later record is filed standalone under the same type and
name as an earlier one, the dictionary assignment replaces the earlier
record in place, so the final mapping holds exactly the later record (one
binding for that name, hence only the last record is rendered); in
particular a second `Enum` block of the same name carries its own fresh
`Values`, discarding the constants accumulated under the first. -/
theorem C10_theorem (recs : List Inst) (r2 : Inst) (t n : String) (info : Info)
    (hty : r2.typeA = some t) (hnm : r2.nameA = some n)
    (htty : t = "Enum" ∨ t = "Constant" ∨ t = "Class")
    (h0 : classifyList initInfo (recs ++ [r2]) = .ok info) :
    (info.dictOf t).isSome ∧
      dictGet ((info.dictOf t).getD []) n = some r2 ∧
      keyCount ((info.dictOf t).getD []) n = 1 := by
  rw [classifyList_append] at h0
  cases h1 : classifyList initInfo recs with
  | error e => rw [h1] at h0; simp at h0
  | ok st1 =>
    rw [h1] at h0
    simp only [classifyList] at h0
    have hinv := classifyList_keyInv recs initInfo st1 h1
      (by refine ⟨?_, ?_, ?_, ?_, ?_⟩ <;> intro k <;> simp [initInfo, keyCount])
    obtain ⟨hi1, hi2, hi3, hi4, hi5⟩ := hinv
    rcases htty with ht | ht | ht <;> subst ht
    · rw [classifyStep_enum st1 r2 n hty hnm] at h0
      simp only [Except.ok.injEq] at h0
      subst h0
      refine ⟨by simp [Info.dictOf], ?_, ?_⟩
      · show dictGet (dictSet st1.enums n r2) n = some r2
        exact dictGet_dictSet_self _ _ _
      · show keyCount (dictSet st1.enums n r2) n = 1
        exact keyCount_dictSet_self _ _ _ (hi1 n)
    · cases hstep : classifyStep st1 r2 with
      | error e => rw [hstep] at h0; simp at h0
      | ok st2 =>
        rw [hstep] at h0
        simp only [Except.ok.injEq] at h0
        subst h0
        rcases classifyStep_ok_shape st1 st2 r2 hstep with
          ⟨nm, hty', hnm', ⟨hdg, hst⟩ | ⟨e', vs', hdg, hva, hst⟩⟩ |
          ⟨nm, hty', hnm', _⟩ | ⟨nm, cl, ms, hty', hnm', hdg, hma, hst⟩ |
          ⟨nm, hty', hnm', _⟩ | ⟨nm, hty', hnm', hst⟩ | ⟨nm, hty', hnm', hst⟩
        · subst hst
          rw [hnm] at hnm'
          cases hnm'
          exact ⟨by simp [Info.dictOf],
            dictGet_dictSet_self _ _ _, keyCount_dictSet_self _ _ _ (hi2 n)⟩
        · subst hst
          rw [hnm] at hnm'
          cases hnm'
          exact ⟨by simp [Info.dictOf],
            dictGet_dictSet_self _ _ _, keyCount_dictSet_self _ _ _ (hi2 n)⟩
        all_goals (rw [hty] at hty'; simp at hty')
    · rw [classifyStep_class st1 r2 n hty hnm] at h0
      simp only [Except.ok.injEq] at h0
      subst h0
      refine ⟨by simp [Info.dictOf], ?_, ?_⟩
      · show dictGet (dictSet st1.classes n r2) n = some r2
        exact dictGet_dictSet_self _ _ _
      · show keyCount (dictSet st1.classes n r2) n = 1
        exact keyCount_dictSet_self _ _ _ (hi3 n)

/-- C10 witness: enum `Colors`, a nested constant, then a second fresh
`Colors` enum — the final mapping holds the second record (with its empty
`Values`), in a single binding. -/
theorem C10_witness :
    (c10Res.dictOf "Enum").isSome ∧
      dictGet ((c10Res.dictOf "Enum").getD []) "Colors" = some cEnumColors ∧
      keyCount ((c10Res.dictOf "Enum").getD []) "Colors" = 1 :=
  C10_theorem [cEnumColors, cConstRed] cEnumColors "Enum" "Colors" c10Res
    rfl rfl (Or.inl rfl) rfl

/-- C1 (amended): a `Constant` whose dotted name head names an
already-classified `Enum` is appended to that enum's `Values` and is
ALSO filed in the top-level `Constant` mapping (the `else` of the
`Function`/`Member`/`Hook` chain catches every `Constant`), so it also
appears in the standalone constants table. -/
theorem C1_theorem (st : Info) (r : Inst) (n E : String) (e : Inst) (vs : List Inst)
    (hty : r.typeA = some "Constant") (hnm : r.nameA = some n)
    (hhd : pySplitHead n "." = E)
    (hdg : dictGet st.enums E = some e) (hvs : e.valuesA = some vs) :
    classifyStep st r =
      .ok { st with
            enums := dictSet st.enums E (e.setValues (vs ++ [r])),
            constants := dictSet st.constants n r } := by
  simp [classifyStep, hty, hnm, nestEnumConst, hhd, hdg, hvs,
    fileStandalone, Info.dictOf, Info.setDict]

/-- C1 counterexample: in the two-block context `Enum: Foo` then
`Constant: Foo.A`, the constant is appended to the enum's `Values` AND is
present in the top-level `Constant` mapping, and the standalone constants
table renders its row — contradicting "attributed to that parent only". -/
theorem C1_counterexample :
    (match gather_info "Enum: Foo\n\nConstant: Foo.A\nValue: 1" with
     | .ok i => (dictGet i.constants "Foo.A").isSome
     | .error _ => false) = true ∧
    (match gather_info "Enum: Foo\n\nConstant: Foo.A\nValue: 1" with
     | .ok i =>
       (match dictGet i.enums "Foo" with
        | some e => (e.valuesA.getD []).length
        | none => 0)
     | .error _ => 0) = 1 ∧
    (match gather_info "Enum: Foo\n\nConstant: Foo.A\nValue: 1" with
     | .ok i => generate_table (i.constants.map Prod.snd)
     | .error e => .error e) =
      .ok "| Name | Value | Description |\n| --- | --- | --- |\n| Foo.A | 1 |\n\n" :=
  ⟨rfl, rfl, rfl⟩

/-- C1 witness: concrete dual filing of an enum-owned constant. -/
theorem C1_witness :
    classifyStep ⟨[("Colors", cEnumColors)], [], [], [], []⟩ cConstRed =
      .ok ⟨[("Colors", cEnumColors.setValues [cConstRed])],
           [("Colors.RED", cConstRed)], [], [], []⟩ :=
  C1_theorem ⟨[("Colors", cEnumColors)], [], [], [], []⟩ cConstRed
    "Colors.RED" "Colors" cEnumColors [] rfl rfl rfl rfl rfl

/-- C2 (amended): a `Constant`, `Function` or `Hook` record matching no
parent is filed standalone under its own type and name; but an unmatched
`Member` record is fatal — the top-level dictionary has no `Member` key,
so `info[inst.Type]` raises `KeyError`. -/
theorem C2_theorem (st : Info) (r : Inst) (n : String) (hnm : r.nameA = some n) :
    (r.typeA = some "Member" → dictGet st.classes (pySplitHead n ".") = none →
      classifyStep st r = .error .keyError) ∧
    (r.typeA = some "Constant" → dictGet st.enums (pySplitHead n ".") = none →
      classifyStep st r = .ok { st with constants := dictSet st.constants n r }) ∧
    (r.typeA = some "Function" → dictGet st.classes (pySplitHead n "::") = none →
      classifyStep st r = .ok { st with functions := dictSet st.functions n r }) ∧
    (r.typeA = some "Hook" → dictGet st.classes (pySplitHead n " -> ") = none →
      classifyStep st r = .ok { st with hooks := dictSet st.hooks n r }) := by
  refine ⟨fun hty hdg => ?_, fun hty hdg => ?_, fun hty hdg => ?_, fun hty hdg => ?_⟩
  · simp [classifyStep, hty, hnm, chainMem, hdg, fileStandalone, Info.dictOf]
  · simp [classifyStep, hty, hnm, nestEnumConst, hdg, fileStandalone,
      Info.dictOf, Info.setDict]
  · simp [classifyStep, hty, hnm, chainFn, hdg, fileStandalone,
      Info.dictOf, Info.setDict]
  · simp [classifyStep, hty, hnm, chainHook, hdg, fileStandalone,
      Info.dictOf, Info.setDict]

/-- C2 counterexample: a context whose only block is a `Member` with no
known class crashes `gather_info` with a `KeyError` instead of being filed
standalone. -/
theorem C2_counterexample :
    gather_info "Member: CBaseEntity.health\nSignature: int health" =
      .error .keyError := rfl

/-- C2 witness: the `Member` arm of the amended statement at a concrete
unmatched member record. -/
theorem C2_witness :
    classifyStep initInfo
      (.mk [("Type", "Member"), ("Name", "X.y"), ("Signature", "s"), ("Description", "")]
        none none none none) = .error .keyError :=
  (C2_theorem initInfo
    (.mk [("Type", "Member"), ("Name", "X.y"), ("Signature", "s"), ("Description", "")]
      none none none none) "X.y" rfl).1 rfl rfl

theorem classifyList_cons_ok (st st1 : Info) (r : Inst) (rs : List Inst)
    (hstep : classifyStep st r = .ok st1) :
    classifyList st (r :: rs) = classifyList st1 rs := by
  simp [classifyList, hstep]

theorem classifyList_cons_err (st : Info) (r : Inst) (rs : List Inst) (e : GErr)
    (hstep : classifyStep st r = .error e) :
    classifyList st (r :: rs) = .error e := by
  simp [classifyList, hstep]

theorem classifyList_append_ok (xs ys : List Inst) (st st1 : Info)
    (h : classifyList st xs = .ok st1) :
    classifyList st (xs ++ ys) = classifyList st1 ys := by
  rw [classifyList_append, h]

theorem classifyList_append_err (xs ys : List Inst) (st : Info) (e : GErr)
    (h : classifyList st xs = .error e) :
    classifyList st (xs ++ ys) = .error e := by
  rw [classifyList_append, h]

/-- C4: in a context containing one `Enum` block named `E` (enum blocks
start with fresh empty `Values`) and a `Constant` record `c` whose dotted
name head is `E` and whose name is not re-filed by a later constant, `c`
ends up in enum `E`'s `Values` if and only if the enum block appeared
earlier in the sequence than `c`; and when no enum `E` precedes `c`, the
constant appears standalone in the top-level `Constant` mapping. -/
theorem C4_theorem (pre post : List Inst) (c : Inst) (n E : String) (info : Info)
    (h0 : classifyList initInfo (pre ++ c :: post) = .ok info)
    (hty : c.typeA = some "Constant") (hnm : c.nameA = some n)
    (hhd : pySplitHead n "." = E)
    (hone : (pre ++ c :: post).countP (isEnumNamedB E) ≤ 1)
    (hfresh : ∀ r ∈ pre ++ c :: post, isEnumNamedB E r = true → r.valuesA = some [])
    (hlater : ∀ r ∈ post, ¬(r.typeA = some "Constant" ∧ r.nameA = some n)) :
    ((∃ e vs, dictGet info.enums E = some e ∧ e.valuesA = some vs ∧ c ∈ vs) ↔
      ∃ r ∈ pre, isEnumNamedB E r = true) ∧
    ((¬ ∃ r ∈ pre, isEnumNamedB E r = true) → dictGet info.constants n = some c) := by
  have hcE : isEnumNamedB E c = false := by simp [isEnumNamedB, hty]
  by_cases hpre : ∃ r ∈ pre, isEnumNamedB E r = true
  · -- Case A: the enum block appears before the constant.
    obtain ⟨e0, he0pre, he0⟩ := hpre
    obtain ⟨p1, p2, hsplit⟩ := List.append_of_mem he0pre
    subst hsplit
    have hz : p1.countP (isEnumNamedB E) = 0 ∧ p2.countP (isEnumNamedB E) = 0 ∧
        post.countP (isEnumNamedB E) = 0 := by
      simp [List.countP_append, List.countP_cons, he0, hcE] at hone
      refine ⟨?_, ?_, ?_⟩ <;> omega
    have hz1 : ∀ r ∈ p1, isEnumNamedB E r = false := by
      intro r hr
      have hnr := List.countP_eq_zero.mp hz.1 r hr
      cases hb : isEnumNamedB E r
      · rfl
      · exact absurd hb hnr
    have hz2 : ∀ r ∈ p2, isEnumNamedB E r = false := by
      intro r hr
      have hnr := List.countP_eq_zero.mp hz.2.1 r hr
      cases hb : isEnumNamedB E r
      · rfl
      · exact absurd hb hnr
    have hzpost : ∀ r ∈ post, isEnumNamedB E r = false := by
      intro r hr
      have hnr := List.countP_eq_zero.mp hz.2.2 r hr
      cases hb : isEnumNamedB E r
      · rfl
      · exact absurd hb hnr
    rw [show (p1 ++ e0 :: p2) ++ c :: post = p1 ++ e0 :: (p2 ++ c :: post) by simp] at h0
    cases ha : classifyList initInfo p1 with
    | error e =>
      rw [classifyList_append_err _ _ _ _ ha] at h0
      cases h0
    | ok stA =>
      rw [classifyList_append_ok _ _ _ _ ha] at h0
      obtain ⟨hety, henm⟩ := (isEnumNamedB_iff E e0).mp he0
      rw [classifyList_cons_ok _ _ _ _ (classifyStep_enum stA e0 E hety henm)] at h0
      cases hb : classifyList { stA with enums := dictSet stA.enums E e0 } p2 with
      | error e =>
        rw [classifyList_append_err _ _ _ _ hb] at h0
        cases h0
      | ok stC =>
        rw [classifyList_append_ok _ _ _ _ hb] at h0
        have hfree0 : e0.valuesA = some [] := hfresh e0 (by simp) he0
        have hentryB :
            dictGet ({ stA with enums := dictSet stA.enums E e0 } : Info).enums E = some e0 := by
          show dictGet (dictSet stA.enums E e0) E = some e0
          exact dictGet_dictSet_self _ _ _
        have hentryC := classifyList_enum_acc E p2 _ stC e0 [] hb hz2 hentryB hfree0
        rw [List.nil_append] at hentryC
        cases hcs : classifyStep stC c with
        | error e =>
          rw [classifyList_cons_err _ _ _ _ hcs] at h0
          cases h0
        | ok stD =>
          rw [classifyList_cons_ok _ _ _ _ hcs] at h0
          have hchild : isChildB E c = true := isChildB_true_of E c n hty hnm hhd
          have hentryD := step_enum_entry stC stD c E _ _ hcs hcE hentryC
            (valuesA_setValues _ _)
          rw [hchild, setValues_setValues] at hentryD
          simp only [if_pos rfl] at hentryD
          have hentryF := classifyList_enum_acc E post stD info _ _ h0 hzpost hentryD
            (valuesA_setValues _ _)
          rw [setValues_setValues] at hentryF
          constructor
          · refine iff_of_true ⟨_, _, hentryF, valuesA_setValues _ _, ?_⟩ ⟨e0, by simp, he0⟩
            simp
          · intro hn
            exact absurd ⟨e0, by simp, he0⟩ hn
  · -- Case B: no enum block named E precedes the constant.
    have hno_pre : ∀ r ∈ pre, isEnumNamedB E r = false := by
      intro r hr
      cases hb : isEnumNamedB E r
      · rfl
      · exact absurd ⟨r, hr, hb⟩ hpre
    cases ha : classifyList initInfo pre with
    | error e =>
      rw [classifyList_append_err _ _ _ _ ha] at h0
      cases h0
    | ok stA =>
      rw [classifyList_append_ok _ _ _ _ ha] at h0
      have hentryA : dictGet stA.enums E = none :=
        classifyList_enum_none E pre initInfo stA ha hno_pre rfl
      cases hcs : classifyStep stA c with
      | error e =>
        rw [classifyList_cons_err _ _ _ _ hcs] at h0
        cases h0
      | ok stB =>
        rw [classifyList_cons_ok _ _ _ _ hcs] at h0
        have hentryB : dictGet stB.enums E = none :=
          step_enum_none stA stB c E hcs hcE hentryA
        have hconstB : dictGet stB.constants n = some c :=
          step_files_constant stA stB c n hcs hty hnm
        have hconstF : dictGet info.constants n = some c := by
          rw [classifyList_constants_preserve n post stB info h0 hlater]
          exact hconstB
        by_cases hpost : ∃ r ∈ post, isEnumNamedB E r = true
        · -- the enum appears, but only after the constant
          obtain ⟨e0, he0post, he0⟩ := hpost
          obtain ⟨q1, q2, hsplit⟩ := List.append_of_mem he0post
          subst hsplit
          have hzq : q1.countP (isEnumNamedB E) = 0 ∧ q2.countP (isEnumNamedB E) = 0 := by
            have hzpre : pre.countP (isEnumNamedB E) = 0 :=
              List.countP_eq_zero.mpr fun r hr => by rw [hno_pre r hr]; simp
            simp [List.countP_append, List.countP_cons, hzpre, hcE, he0] at hone
            refine ⟨?_, ?_⟩ <;> omega
          have hzq1 : ∀ r ∈ q1, isEnumNamedB E r = false := by
            intro r hr
            have hnr := List.countP_eq_zero.mp hzq.1 r hr
            cases hb : isEnumNamedB E r
            · rfl
            · exact absurd hb hnr
          have hzq2 : ∀ r ∈ q2, isEnumNamedB E r = false := by
            intro r hr
            have hnr := List.countP_eq_zero.mp hzq.2 r hr
            cases hb : isEnumNamedB E r
            · rfl
            · exact absurd hb hnr
          cases hq : classifyList stB q1 with
          | error e =>
            rw [classifyList_append_err _ _ _ _ hq] at h0
            cases h0
          | ok stC =>
            rw [classifyList_append_ok _ _ _ _ hq] at h0
            have hentryC : dictGet stC.enums E = none :=
              classifyList_enum_none E q1 stB stC hq hzq1 hentryB
            obtain ⟨hety, henm⟩ := (isEnumNamedB_iff E e0).mp he0
            rw [classifyList_cons_ok _ _ _ _ (classifyStep_enum stC e0 E hety henm)] at h0
            have hfree0 : e0.valuesA = some [] := hfresh e0 (by simp) he0
            have hentryD :
                dictGet ({ stC with enums := dictSet stC.enums E e0 } : Info).enums E =
                  some e0 := by
              show dictGet (dictSet stC.enums E e0) E = some e0
              exact dictGet_dictSet_self _ _ _
            have hentryF := classifyList_enum_acc E q2 _ info e0 [] h0 hzq2 hentryD hfree0
            rw [List.nil_append] at hentryF
            constructor
            · refine iff_of_false ?_ hpre
              rintro ⟨e, vs, hdg, hvs, hmem⟩
              rw [hentryF] at hdg
              cases hdg
              rw [valuesA_setValues] at hvs
              cases hvs
              have hcq2 : c ∈ q2 := (List.mem_filter.mp hmem).1
              exact hlater c (by simp [hcq2]) ⟨hty, hnm⟩
            · intro _
              exact hconstF
        · -- no enum block named E anywhere
          have hno_post : ∀ r ∈ post, isEnumNamedB E r = false := by
            intro r hr
            cases hb : isEnumNamedB E r
            · rfl
            · exact absurd ⟨r, hr, hb⟩ hpost
          have hentryF : dictGet info.enums E = none :=
            classifyList_enum_none E post stB info h0 hno_post hentryB
          constructor
          · refine iff_of_false ?_ hpre
            rintro ⟨e, vs, hdg, _, _⟩
            rw [hentryF] at hdg
            cases hdg
          · intro _
            exact hconstF

/-! ### Separator stripping (`re.sub(r"\n?={37}\n?", "", block)`) -/

theorem eatEq_replicate : ∀ (n : Nat) (rest : List Char),
    eatEq n (List.replicate n '=' ++ rest) = some rest := by
  intro n
  induction n with
  | zero => intro rest; simp [eatEq]
  | succ m ih => intro rest; simp [List.replicate_succ, eatEq, ih]

theorem sepMatch_eq_head (rest : List Char) :
    sepMatch (List.replicate 37 '=' ++ rest) = some (afterEq rest) := by
  rw [show (37 : Nat) = 36 + 1 from rfl, List.replicate_succ]
  simp only [List.cons_append, sepMatch]
  rw [if_neg (by decide : ¬('=' : Char) = '\n')]
  rw [show ('=' :: (List.replicate 36 '=' ++ rest) : List Char) =
        List.replicate 37 '=' ++ rest from by
      rw [show (37 : Nat) = 36 + 1 from rfl, List.replicate_succ]
      simp]
  rw [eatEq_replicate]
  rfl

theorem sepMatch_none (c : Char) (cs : List Char) (h1 : c ≠ '\n') (h2 : c ≠ '=') :
    sepMatch (c :: cs) = none := by
  simp only [sepMatch]
  rw [if_neg h1]
  rw [show (37 : Nat) = 36 + 1 from rfl]
  simp only [eatEq]
  rw [if_neg h2]
  rfl

theorem subSepFuel_match' (fuel : Nat) (cs rest : List Char)
    (hne : cs ≠ []) (h : sepMatch cs = some rest) :
    subSepFuel (fuel + 1) cs = subSepFuel fuel rest := by
  cases cs with
  | nil => exact absurd rfl hne
  | cons c cs' => simp only [subSepFuel, h]

theorem subSepFuel_skip : ∀ (l : List Char) (fuel : Nat) (rest : List Char),
    (∀ ch ∈ l, ch ≠ '\n' ∧ ch ≠ '=') →
    subSepFuel (l.length + fuel) (l ++ rest) = l ++ subSepFuel fuel rest := by
  intro l
  induction l with
  | nil => intro fuel rest _; simp
  | cons c l' ih =>
    intro fuel rest hcl
    have hc := hcl c (by simp)
    rw [show (c :: l').length + fuel = (l'.length + fuel) + 1 from by
      simp [List.length_cons]; omega]
    show subSepFuel ((l'.length + fuel) + 1) (c :: (l' ++ rest)) = _
    simp only [subSepFuel, sepMatch_none c _ hc.1 hc.2]
    rw [ih fuel rest (fun ch hch => hcl ch (by simp [hch]))]
    rfl

theorem subSep_core (ld : List Char) (h : ∀ ch ∈ ld, ch ≠ '\n' ∧ ch ≠ '=') :
    subSepFuel (ld.length + 76)
      (List.replicate 37 '=' ++ '\n' :: (ld ++ '\n' :: List.replicate 37 '=')) = ld := by
  have h1 : sepMatch (List.replicate 37 '=' ++ '\n' :: (ld ++ '\n' :: List.replicate 37 '=')) =
      some (ld ++ '\n' :: List.replicate 37 '=') := by
    rw [sepMatch_eq_head]
    simp [afterEq]
  rw [show ld.length + 76 = (ld.length + 75) + 1 from by omega]
  rw [subSepFuel_match' _ _ _ (by simp) h1]
  rw [subSepFuel_skip ld 75 ('\n' :: List.replicate 37 '=') h]
  have h2 : sepMatch ('\n' :: List.replicate 37 '=') = some [] := by
    have heat : eatEq 37 (List.replicate 37 '=') = some [] := by
      rw [show (List.replicate 37 '=' : List Char) = List.replicate 37 '=' ++ [] from by simp]
      exact eatEq_replicate 37 []
    show (if ('\n' : Char) = '\n' then (eatEq 37 (List.replicate 37 '=')).map afterEq
          else (eatEq 37 ('\n' :: List.replicate 37 '=')).map afterEq) = some []
    rw [if_pos rfl, heat]
    rfl
  rw [show (75 : Nat) = 74 + 1 from rfl]
  rw [subSepFuel_match' 74 _ _ (by simp) h2]
  simp [subSepFuel]

/-- C5 (amended): the separator stripping removes the leftmost
non-overlapping matches of `\n?={37}\n?` — each match deletes exactly 37
consecutive `'='` characters together with at most one adjacent newline
on either side; a block wrapped in newline-bounded 37-character separator
lines parses down to its payload line.  (A shorter separator line such as
`==` is not deleted — see the counterexample.) -/
theorem C5_theorem (l : String) (hl : ∀ ch ∈ l.data, ch ≠ '\n' ∧ ch ≠ '=') :
    pySubSep (eqSep ++ "\n" ++ l ++ "\n" ++ eqSep) = l := by
  have hdata : (eqSep ++ "\n" ++ l ++ "\n" ++ eqSep).data =
      List.replicate 37 '=' ++ '\n' :: (l.data ++ '\n' :: List.replicate 37 '=') := by
    show (((List.replicate 37 '=' ++ ['\n']) ++ l.data) ++ ['\n']) ++ List.replicate 37 '=' = _
    simp
  have hlen : (eqSep ++ "\n" ++ l ++ "\n" ++ eqSep).data.length = l.data.length + 76 := by
    rw [hdata]
    simp [List.length_append, List.length_replicate, List.length_cons]
  show (⟨subSepFuel (eqSep ++ "\n" ++ l ++ "\n" ++ eqSep).data.length
      (eqSep ++ "\n" ++ l ++ "\n" ++ eqSep).data⟩ : String) = l
  rw [hlen, hdata, subSep_core l.data hl]

/-- C5 counterexample: a decorative separator line of length 2 is NOT
stripped (the regex deletes only `={37}` matches), and the resulting block
then fails to parse because the remaining `==` line has no colon. -/
theorem C5_counterexample :
    pySubSep "==\nEnum: X" = "==\nEnum: X" ∧
      instInit (pySplitlines (pySubSep "==\nEnum: X")) = none := ⟨rfl, rfl⟩

/-- C5 witness: a block line wrapped in 37-character separator lines is
recovered exactly. -/
theorem C5_witness :
    pySubSep (eqSep ++ "\n" ++ "Enum: X" ++ "\n" ++ eqSep) = "Enum: X" :=
  C5_theorem "Enum: X" (by decide)

/-- C4 witness: enum `Colors` followed by constant `Colors.RED` — the
constant is nested (the enum appeared earlier) and the standalone clause
is vacuously available. -/
theorem C4_witness :
    ((∃ e vs, dictGet c4Res.enums "Colors" = some e ∧ e.valuesA = some vs ∧ cConstRed ∈ vs) ↔
      ∃ r ∈ [cEnumColors], isEnumNamedB "Colors" r = true) ∧
    ((¬ ∃ r ∈ [cEnumColors], isEnumNamedB "Colors" r = true) →
      dictGet c4Res.constants "Colors.RED" = some cConstRed) :=
  C4_theorem [cEnumColors] [] cConstRed "Colors.RED" "Colors" c4Res rfl rfl rfl rfl
    (by decide)
    (by
      intro r hr hEn
      simp only [List.cons_append, List.nil_append, List.mem_cons,
        List.not_mem_nil, or_false] at hr
      rcases hr with rfl | rfl
      · rfl
      · exact absurd hEn (by decide))
    (by intro r hr; exact absurd hr (List.not_mem_nil r))

/-! ### The main script: no output on parse failure -/

theorem splitColon_none (cs : List Char) (h : ':' ∉ cs) : splitColon cs = none := by
  induction cs with
  | nil => rfl
  | cons c cs' ih =>
    have hc : c ≠ ':' := fun hEq => h (by simp [hEq])
    simp [splitColon, hc, ih (fun hmem => h (by simp [hmem]))]

theorem pyFindFirst_none (l : String) (h : ':' ∉ l.data) : pyFindFirst l = none := by
  have hd : dropColons l.data = l.data := by
    cases hcs : l.data with
    | nil => rfl
    | cons c cs' =>
      have hc : c ≠ ':' := fun hEq => h (by simp [hcs, hEq])
      simp [dropColons, hc]
  simp [pyFindFirst, pyFindFirstL, hd, splitColon_none _ h]

theorem instInit_eq_none (lines : List String)
    (h : ∃ l ∈ lines, pyFindFirst l = none) : instInit lines = none := by
  cases heq : instInit lines with
  | none => rfl
  | some i =>
    exfalso
    obtain ⟨l, hl, hbad⟩ := h
    have := (instLines_isSome_iff lines [] none none none none).mp
      (by rw [show instLines [] none none none none lines = instInit lines from rfl, heq]; rfl)
      l hl
    rw [hbad] at this
    simp at this

theorem gatherBlock_bad (st : Info) (b : String)
    (h : ∃ l ∈ pySplitlines (pySubSep b), ':' ∉ l.data) :
    gatherBlock st b = .error .indexError := by
  obtain ⟨l, hl, hnc⟩ := h
  unfold gatherBlock
  rw [instInit_eq_none _ ⟨l, hl, pyFindFirst_none l hnc⟩]

theorem gatherList_bad : ∀ (bs : List String) (st : Info),
    (∃ b ∈ bs, ∃ l ∈ pySplitlines (pySubSep b), ':' ∉ l.data) →
    ∃ e, gatherList st bs = .error e := by
  intro bs
  induction bs with
  | nil =>
    intro st h
    obtain ⟨b, hb, _⟩ := h
    exact absurd hb (List.not_mem_nil b)
  | cons b bs' ih =>
    intro st h
    cases hstep : gatherBlock st b with
    | error e => exact ⟨e, by simp [gatherList, hstep]⟩
    | ok st' =>
      obtain ⟨b0, hb0, hbad⟩ := h
      rcases List.mem_cons.mp hb0 with rfl | hmem
      · rw [gatherBlock_bad st b0 hbad] at hstep
        cases hstep
      · obtain ⟨e, he⟩ := ih st' ⟨b0, hmem, hbad⟩
        exact ⟨e, by simp [gatherList, hstep, he]⟩

theorem gather_info_bad (raw : String)
    (h : ∃ b ∈ pySplit raw "\n\n", ∃ l ∈ pySplitlines (pySubSep b), ':' ∉ l.data) :
    ∃ e, gather_info raw = .error e :=
  gatherList_bad (pySplit raw "\n\n") initInfo h

/-- C7: the module-level script computes `gather_info` and `generate_docs`
for BOTH contexts (lines 162-163 of the source) strictly before the first
directory creation or file write (lines 165-181), so a malformed record
block — one containing a line without a colon — in either context aborts
the run with an exception and the script produces no write at all: the
model returns an error instead of a list of `(path, content)` pairs. -/
theorem C7_theorem (dump ver body s c : String)
    (h1 : pySplitOnce dump "\n" = some (ver, body))
    (h2 : pySplitExact2 body "\nDOCUMENTATION_CLIENT\n" = some (s, c))
    (h3 : (∃ b ∈ pySplit s "\n\n", ∃ l ∈ pySplitlines (pySubSep b), ':' ∉ l.data) ∨
          (∃ b ∈ pySplit c "\n\n", ∃ l ∈ pySplitlines (pySubSep b), ':' ∉ l.data)) :
    ∃ e, mainModel dump = .error e := by
  rcases h3 with hbad | hbad
  · obtain ⟨e, he⟩ := gather_info_bad s hbad
    exact ⟨e, by simp [mainModel, h1, h2, he]⟩
  · obtain ⟨e, he⟩ := gather_info_bad c hbad
    cases hs : gather_info s with
    | error e' => exact ⟨e', by simp [mainModel, h1, h2, hs]⟩
    | ok sInfo =>
      cases hd : generate_docs sInfo "Server" ver with
      | error e' => exact ⟨e', by simp [mainModel, h1, h2, hs, hd]⟩
      | ok sDocs => exact ⟨e, by simp [mainModel, h1, h2, hs, hd, he]⟩

/-- C7 witness: a dump whose server context consists of a single block
without a colon produces an error — and hence no write pairs — from the
whole-script model. -/
theorem C7_witness :
    ∃ e, mainModel "1.0\nbad\nDOCUMENTATION_CLIENT\nEnum: X" = .error e :=
  C7_theorem "1.0\nbad\nDOCUMENTATION_CLIENT\nEnum: X" "1.0"
    "bad\nDOCUMENTATION_CLIENT\nEnum: X" "bad" "Enum: X" rfl rfl
    (Or.inl ⟨"bad", by decide, "bad", by decide, by decide⟩)
